import Mathlib

/-!
Verification of the plan mutation/composition engine of `bluesky/plans.py`.

A *plan* is a resumable sequence (a Python generator) that yields `Msg`
instructions and is resumed either with a response value or with an injected
exception.  We embed plans as an inductive free-monad-style tree: each yield
node carries the message and a continuation over `Except Err Val`
(`.ok v` models `gen.send(v)`, `.error e` models `gen.throw(e)`).

Python values flowing through the protocol (responses, completion values,
message arguments) are modelled by the small dynamic type `Val`; Python
exceptions by `Err`.  Message identity (`id(msg)` in CPython) is modelled by
an explicit token field `mid`, following the spec's own design note that the
"seen" bookkeeping should use a monotonically issued token per constructed
message rather than memory addresses.
-/

/-- Dynamic values exchanged between a plan and its executor.  `vnone` is
Python `None`; `vpair` models the 2-tuples produced by `bschain`. -/
inductive Val : Type where
  | vnone : Val
  | vint : Int → Val
  | vstr : String → Val
  | vpair : Val → Val → Val
  deriving DecidableEq, Repr

/-- Exceptions.  `StopIteration` is not listed here: generator exhaustion is a
distinct `StepResult` constructor, mirroring how `plan_mutator` catches
`StopIteration` separately from all other exceptions. -/
inductive Err : Type where
  | runtimeError : Err
  | indexError : Err
  | typeError : Err
  | valueError : Err
  | outOfFuel : Err
  | emptyStack : Err
  | user : Nat → Err
  deriving DecidableEq, Repr

/-- Modelled from the spec: the `Msg` value type (defined in `run_engine.py`,
which is outside `src/`).  Per spec §3 a Message carries a symbolic `command`,
an optional `target` resource (field name `obj` in the code), positional
`args` and keyword `kwargs` (the synchronization `group` travels as the
`block_group` keyword at the call sites in `plans.py`).  The extra `mid`
field is the identity token standing in for CPython's `id(msg)`; two
separately constructed Messages get distinct `mid`s even when all other
fields coincide. -/
structure Msg : Type where
  command : String
  obj : Option Nat
  args : List Val
  kwargs : List (String × Val)
  mid : Nat
  deriving DecidableEq, Repr

/-- A plan: `done v` models the generator returning `v`; `fail e` models the
generator raising `e`; `yield m k` models `yield m` with `k` deciding how the
generator continues after `send` (`.ok`) or `throw` (`.error`). -/
inductive Plan : Type where
  | done : Val → Plan
  | fail : Err → Plan
  | yield : Msg → (Except Err Val → Plan) → Plan

/-- A yield point whose continuation does not catch thrown exceptions: the
ordinary `ret = yield msg` inside a generator with no enclosing `try`. -/
def yieldM (m : Msg) (k : Val → Plan) : Plan :=
  .yield m fun x =>
    match x with
    | .ok v => k v
    | .error e => .fail e

/-- A straight-line generator that yields the messages of `ms` in order
(ignoring the responses, never catching) and then continues as `p`. -/
def msgsThen : List Msg → Plan → Plan
  | [], p => p
  | m :: ms, p =>
      .yield m fun x =>
        match x with
        | .ok _ => msgsThen ms p
        | .error e => .fail e

/-- The continuation a `msgsThen` generator is suspended with, and also the
state of a not-yet-started generator (the engine always primes with `None`,
and `gen.throw` on an unstarted generator raises without running the body). -/
def lineK (ms : List Msg) (p : Plan) : Except Err Val → Plan := fun x =>
  match x with
  | .ok _ => msgsThen ms p
  | .error e => .fail e

theorem msgsThen_cons (m : Msg) (ms : List Msg) (p : Plan) :
    msgsThen (m :: ms) p = .yield m (lineK ms p) := rfl

/-- A straight-line plan: yield the messages of `ms`, return `v`. -/
def msgsPlan (ms : List Msg) (v : Val) : Plan := msgsThen ms (.done v)

/-- `single_gen` from the source: turn a single Msg into a plan. -/
def single_gen (m : Msg) : Plan := msgsPlan [m] .vnone

/-- `p.send/throw`-style sequencing (`yield from p`, then continue with the
outcome): the continuation receives `p`'s completion value or its fault. -/
def bindP : Plan → (Except Err Val → Plan) → Plan
  | .done v, f => f (.ok v)
  | .fail e, f => f (.error e)
  | .yield m k, f => .yield m fun x => bindP (k x) f

/-- `yield from p`, then continue with `p`'s completion value; a fault in `p`
propagates (the delegating generator does not catch). -/
def bindOk (p : Plan) (f : Val → Plan) : Plan :=
  bindP p fun x =>
    match x with
    | .ok v => f v
    | .error e => .fail e

/-- `bschain` from the source, at the arity used by `stage_wrapper`: run two
plans in sequence, forwarding responses to each, and return the tuple of
their completion values. -/
def bschain2 (p q : Plan) : Plan :=
  bindOk p fun v1 => bindOk q fun v2 => .done (.vpair v1 v2)

/-- `finalize` from the source: `try: ret = yield from plan  finally:
yield from final_plan  return ret`.  The finally clause runs on completion and
on fault; a fault in the finally clause replaces the pending outcome. -/
def finalize (plan final_plan : Plan) : Plan :=
  bindP plan fun res =>
    bindOk final_plan fun _ =>
      match res with
      | .ok v => .done v
      | .error e => .fail e

/-- Outcome of driving a plan against a response script. -/
inductive Outcome : Type where
  | completed : Val → Outcome
  | faulted : Err → Outcome
  | stuck : Outcome
  deriving DecidableEq, Repr

/-- Drive a plan directly (the external executor's side of the protocol):
each yielded message consumes one script entry — a response `.ok v` or an
injected fault `.error e`.  Returns the yielded messages in order, the
outcome, and the unconsumed remainder of the script.  An exhausted script at
a yield point leaves the run `stuck` (the message was already handed out). -/
def runPlan : Plan → List (Except Err Val) → List Msg × Outcome × List (Except Err Val)
  | .done v, script => ([], .completed v, script)
  | .fail e, script => ([], .faulted e, script)
  | .yield m _, [] => ([m], .stuck, [])
  | .yield m k, x :: rest =>
      let r := runPlan (k x) rest
      (m :: r.1, r.2)

/-- A response script consisting only of ordinary responses. -/
def oks (rs : List Val) : List (Except Err Val) := rs.map Except.ok

/- ## The mutator engine (`plan_mutator`) -/

/-- State of one generator on the engine's `plan_stack`: suspended at a yield
point with continuation `k`, or finished/raised (`dead`; `send` into a dead
generator raises `StopIteration`, `throw` re-raises the thrown exception). -/
inductive FrameState : Type where
  | susp : (Except Err Val → Plan) → FrameState
  | dead : FrameState

/-- One `plan_stack` slot together with its `tail_cache` binding (the deferred
tail plan keyed on this generator's identity) and its `tail_result_cache`
binding (the response value that must replace this frame's own completion
value). -/
structure Entry : Type where
  frame : FrameState
  tail : Option Plan
  override : Option Val

/-- What one resumption of a generator produced. -/
inductive StepResult : Type where
  | yielded : Msg → (Except Err Val → Plan) → StepResult
  | returned : Val → StepResult
  | raised : Err → StepResult

/-- Inspect the plan a resumed generator ran to. -/
def stepPlan : Plan → StepResult
  | .done v => .returned v
  | .fail e => .raised e
  | .yield m k => .yielded m k

/-- Resume a frame with a response or a thrown exception. -/
def resumeF : FrameState → Except Err Val → StepResult
  | .susp k, x => stepPlan (k x)
  | .dead, .ok _ => .returned .vnone
  | .dead, .error e => .raised e

/-- A generator created but not yet started (the engine primes it by sending
`None`, which the body never observes). -/
def unstarted (p : Plan) : FrameState := .susp (lineK [] p)

/-- What `msg_proc(msg)` evaluates to.  `pyNone` models a rewrite function
that returns bare `None` instead of a pair — unpacking it then raises
`TypeError` inside the engine's loop (this is exercised by `stage_wrapper`).
`pair new_gen tail_gen` is the normal two-generator answer. -/
inductive ProcRes : Type where
  | pyNone : ProcRes
  | pair : Option Plan → Option Plan → ProcRes

/-- Engine continuation commands: run one iteration of the driving loop
(`iter`), or run the `except Exception: plan.throw(ex)` handler (`exc`).
`s` threads the rewrite function's closure state. -/
inductive Cmd (σ : Type) : Type where
  | iter : σ → List Entry → List Val → List Nat → Cmd σ
  | exc : σ → List Entry → List Val → List Nat → Err → Cmd σ

/-- The driving loop of `plan_mutator`, fuel-bounded, producing the engine's
own generator as a `Plan`.  The stack's head is the top (most recently
spliced) frame; the root is the last element and is never popped before the
loop ends.  `kd s v` is invoked where the source returns (normal completion
returns `plan.close()`, i.e. `None`, so the call sites pass `.vnone`; the
`except`-path StopIteration carries the root's own value); `kf s e` where an
exception propagates out of the engine.  Keeping them as parameters lets
`stage_wrapper` attach its `finalize`d unstage plan, which reads the rewrite
closure's final state. -/
def mutAux {σ : Type} (proc : σ → Msg → σ × ProcRes) (kd : σ → Val → Plan)
    (kf : σ → Err → Plan) : Nat → Cmd σ → Plan
  | 0, _ => .fail .outOfFuel
  | fuel + 1, .exc s stack res seen err =>
      -- `plan.throw(ex)`: resume the root (bottom) frame with the exception.
      match stack.getLast? with
      | none => .fail .emptyStack
      | some re =>
          match resumeF re.frame (.error err) with
          | .raised e' => kf s e'
          | .returned v =>
              -- StopIteration escapes the handler: the engine's own
              -- generator ends, delivering the root's value (pre-PEP-479).
              kd s v
          | .yielded _ k' =>
              -- the root caught the exception and yielded: the yielded
              -- message is discarded and the loop continues.
              mutAux proc kd kf fuel
                (.iter s (stack.dropLast ++ [{ re with frame := .susp k' }]) res seen)
  | fuel + 1, .iter s stack res seen =>
      match res with
      | [] =>
          -- `result_stack.pop()` on an empty deque raises IndexError.
          mutAux proc kd kf fuel (.exc s stack [] seen .indexError)
      | r :: res =>
          match stack with
          | [] => .fail .emptyStack
          | e :: rest =>
              match resumeF e.frame (.ok r) with
              | .returned _ =>
                  -- StopIteration: pop the exhausted generator; its own
                  -- return value is discarded, `ret` is still the value that
                  -- was just sent, unless a stashed override replaces it.
                  let ret := e.override.getD r
                  match e.tail with
                  | some tg =>
                      mutAux proc kd kf fuel
                        (.iter s
                          ({ frame := unstarted tg, tail := none,
                             override := some ret } :: rest)
                          (.vnone :: res) seen)
                  | none =>
                      match rest with
                      | [] => kd s .vnone  -- return plan.close()
                      | _ :: _ => mutAux proc kd kf fuel (.iter s rest (ret :: res) seen)
              | .raised err =>
                  mutAux proc kd kf fuel
                    (.exc s ({ e with frame := .dead } :: rest) res seen err)
              | .yielded m k =>
                  let e' : Entry := { e with frame := .susp k }
                  if m.mid ∈ seen then
                    .yield m fun x =>
                      match x with
                      | .ok v => mutAux proc kd kf fuel (.iter s (e' :: rest) (v :: res) seen)
                      | .error err => mutAux proc kd kf fuel (.exc s (e' :: rest) res seen err)
                  else
                    match proc s m with
                    | (s', .pyNone) =>
                        -- `new_gen, tail_gen = msg_proc(msg)` unpacking None
                        mutAux proc kd kf fuel
                          (.exc s' (e' :: rest) res (m.mid :: seen) .typeError)
                    | (s', .pair none none) =>
                        .yield m fun x =>
                          match x with
                          | .ok v =>
                              mutAux proc kd kf fuel
                                (.iter s' (e' :: rest) (v :: res) (m.mid :: seen))
                          | .error err =>
                              mutAux proc kd kf fuel
                                (.exc s' (e' :: rest) res (m.mid :: seen) err)
                    | (s', .pair none (some _)) =>
                        -- "This makes no sense": raised inside the try block,
                        -- hence routed through the generic except handler.
                        mutAux proc kd kf fuel
                          (.exc s' (e' :: rest) res (m.mid :: seen) .runtimeError)
                    | (s', .pair (some g) tg) =>
                        mutAux proc kd kf fuel
                          (.iter s'
                            ({ frame := unstarted g, tail := tg, override := none }
                              :: e' :: rest)
                            (.vnone :: res) (m.mid :: seen))

/-- `plan_mutator(plan, msg_proc)`: seed the stack with the root plan and a
priming `None` response; on normal completion the engine returns
`plan.close()`, which (the root generator being already exhausted) is `None`;
an exception that survives root-level handling propagates to the caller. -/
def plan_mutator {σ : Type} (fuel : Nat) (p : Plan) (proc : σ → Msg → σ × ProcRes)
    (s₀ : σ) : Plan :=
  mutAux proc (fun _ v => .done v) (fun _ e => .fail e) fuel
    (.iter s₀ [{ frame := unstarted p, tail := none, override := none }] [.vnone] [])

/-- The always-declining rewrite function (`msg -> None, None`). -/
def passProc : Unit → Msg → Unit × ProcRes := fun s _ => (s, .pair none none)

/- ## Engine stepping lemmas and simulation -/

/-- The engine's seen-set update for one processed message. -/
def addSeen (seen : List Nat) (m : Msg) : List Nat :=
  if m.mid ∈ seen then seen else m.mid :: seen

theorem mem_addSeen (seen : List Nat) (m : Msg) {a : Nat} (h : a ∈ seen) :
    a ∈ addSeen seen m := by
  unfold addSeen
  split
  · exact h
  · exact List.mem_cons_of_mem _ h

/-- The engine's own generator suspended right after yielding `m` to the
caller: a response is stored as the pending result for whatever frame is now
on top; a thrown exception goes to the handler. -/
def yTree {σ : Type} (proc : σ → Msg → σ × ProcRes) (kd : σ → Val → Plan)
    (kf : σ → Err → Plan) (fuel : Nat) (s : σ) (stack : List Entry) (res : List Val)
    (seen : List Nat) (m : Msg) : Plan :=
  .yield m fun x =>
    match x with
    | .ok v => mutAux proc kd kf fuel (.iter s stack (v :: res) seen)
    | .error err => mutAux proc kd kf fuel (.exc s stack res seen err)

theorem runPlan_yTree_ok {σ : Type} (proc : σ → Msg → σ × ProcRes) (kd : σ → Val → Plan)
    (kf : σ → Err → Plan) (fuel : Nat) (s : σ) (stack : List Entry) (res : List Val)
    (seen : List Nat) (m : Msg) (v : Val) (sc : List (Except Err Val)) :
    runPlan (yTree proc kd kf fuel s stack res seen m) (.ok v :: sc) =
      (m :: (runPlan (mutAux proc kd kf fuel (.iter s stack (v :: res) seen)) sc).1,
        (runPlan (mutAux proc kd kf fuel (.iter s stack (v :: res) seen)) sc).2) := rfl

theorem runPlan_yTree_err {σ : Type} (proc : σ → Msg → σ × ProcRes) (kd : σ → Val → Plan)
    (kf : σ → Err → Plan) (fuel : Nat) (s : σ) (stack : List Entry) (res : List Val)
    (seen : List Nat) (m : Msg) (err : Err) (sc : List (Except Err Val)) :
    runPlan (yTree proc kd kf fuel s stack res seen m) (.error err :: sc) =
      (m :: (runPlan (mutAux proc kd kf fuel (.exc s stack res seen err)) sc).1,
        (runPlan (mutAux proc kd kf fuel (.exc s stack res seen err)) sc).2) := rfl

theorem runPlan_yTree_nil {σ : Type} (proc : σ → Msg → σ × ProcRes) (kd : σ → Val → Plan)
    (kf : σ → Err → Plan) (fuel : Nat) (s : σ) (stack : List Entry) (res : List Val)
    (seen : List Nat) (m : Msg) :
    runPlan (yTree proc kd kf fuel s stack res seen m) [] = ([m], .stuck, []) := rfl

/-- One loop iteration where the top frame yields a message that is either
already seen or declined by the rewrite function (with unchanged closure
state): the engine yields it to the caller unchanged. -/
theorem mutAux_yield_pass {σ : Type} (proc : σ → Msg → σ × ProcRes) (kd : σ → Val → Plan)
    (kf : σ → Err → Plan) (fuel : Nat) (s : σ) (fr : FrameState) (t : Option Plan)
    (ov : Option Val) (rest : List Entry) (r : Val) (res : List Val) (seen : List Nat)
    (m : Msg) (k : Except Err Val → Plan)
    (hstep : resumeF fr (.ok r) = .yielded m k)
    (hc : m.mid ∈ seen ∨ proc s m = (s, .pair none none)) :
    mutAux proc kd kf (fuel + 1) (.iter s (⟨fr, t, ov⟩ :: rest) (r :: res) seen) =
      yTree proc kd kf fuel s (⟨.susp k, t, ov⟩ :: rest) res (addSeen seen m) m := by
  by_cases hm : m.mid ∈ seen
  · simp [mutAux, yTree, hstep, hm, addSeen]
  · rcases hc with hc | hc
    · exact absurd hc hm
    · simp [mutAux, yTree, hstep, hm, hc, addSeen]

/-- One loop iteration where the top frame finishes (`StopIteration`) and had
a tail binding: the tail is spliced in, with the pending response (possibly
already overridden) stashed as the tail's override. -/
theorem mutAux_pop_tail {σ : Type} (proc : σ → Msg → σ × ProcRes) (kd : σ → Val → Plan)
    (kf : σ → Err → Plan) (fuel : Nat) (s : σ) (fr : FrameState) (tg : Plan)
    (ov : Option Val) (rest : List Entry) (r retv : Val) (res : List Val) (seen : List Nat)
    (hstep : resumeF fr (.ok r) = .returned retv) :
    mutAux proc kd kf (fuel + 1) (.iter s (⟨fr, some tg, ov⟩ :: rest) (r :: res) seen) =
      mutAux proc kd kf fuel
        (.iter s (⟨unstarted tg, none, some (ov.getD r)⟩ :: rest) (.vnone :: res) seen) := by
  simp [mutAux, hstep]

/-- One loop iteration where the top frame finishes with no tail and frames
remain below: the frame below becomes current with the (possibly overridden)
response pending. -/
theorem mutAux_pop_ret {σ : Type} (proc : σ → Msg → σ × ProcRes) (kd : σ → Val → Plan)
    (kf : σ → Err → Plan) (fuel : Nat) (s : σ) (fr : FrameState)
    (ov : Option Val) (e2 : Entry) (rest : List Entry) (r retv : Val) (res : List Val)
    (seen : List Nat) (hstep : resumeF fr (.ok r) = .returned retv) :
    mutAux proc kd kf (fuel + 1) (.iter s (⟨fr, none, ov⟩ :: e2 :: rest) (r :: res) seen) =
      mutAux proc kd kf fuel (.iter s (e2 :: rest) (ov.getD r :: res) seen) := by
  simp [mutAux, hstep]

/-- One loop iteration where the root itself finishes: the stack empties and
the engine returns `plan.close()`, i.e. `None`. -/
theorem mutAux_pop_last {σ : Type} (proc : σ → Msg → σ × ProcRes) (kd : σ → Val → Plan)
    (kf : σ → Err → Plan) (fuel : Nat) (s : σ) (fr : FrameState)
    (ov : Option Val) (r retv : Val) (res : List Val) (seen : List Nat)
    (hstep : resumeF fr (.ok r) = .returned retv) :
    mutAux proc kd kf (fuel + 1) (.iter s [⟨fr, none, ov⟩] (r :: res) seen) =
      kd s .vnone := by
  simp [mutAux, hstep]

/-- One loop iteration where resuming the top frame raises: the frame is dead
and the exception handler runs. -/
theorem mutAux_raise {σ : Type} (proc : σ → Msg → σ × ProcRes) (kd : σ → Val → Plan)
    (kf : σ → Err → Plan) (fuel : Nat) (s : σ) (fr : FrameState) (t : Option Plan)
    (ov : Option Val) (rest : List Entry) (r : Val) (res : List Val) (seen : List Nat)
    (err : Err) (hstep : resumeF fr (.ok r) = .raised err) :
    mutAux proc kd kf (fuel + 1) (.iter s (⟨fr, t, ov⟩ :: rest) (r :: res) seen) =
      mutAux proc kd kf fuel (.exc s (⟨.dead, t, ov⟩ :: rest) res seen err) := by
  simp [mutAux, hstep]

/-- One loop iteration where the top frame yields a fresh message and the
rewrite function splices: the replacement is pushed unstarted with a priming
`None` response and the tail (if any) recorded against it; nothing is yielded
to the caller yet. -/
theorem mutAux_splice {σ : Type} (proc : σ → Msg → σ × ProcRes) (kd : σ → Val → Plan)
    (kf : σ → Err → Plan) (fuel : Nat) (s s' : σ) (fr : FrameState) (t : Option Plan)
    (ov : Option Val) (rest : List Entry) (r : Val) (res : List Val) (seen : List Nat)
    (m : Msg) (k : Except Err Val → Plan) (g : Plan) (tg : Option Plan)
    (hstep : resumeF fr (.ok r) = .yielded m k) (hm : m.mid ∉ seen)
    (hp : proc s m = (s', .pair (some g) tg)) :
    mutAux proc kd kf (fuel + 1) (.iter s (⟨fr, t, ov⟩ :: rest) (r :: res) seen) =
      mutAux proc kd kf fuel
        (.iter s' (⟨unstarted g, tg, none⟩ :: ⟨.susp k, t, ov⟩ :: rest)
          (.vnone :: res) (m.mid :: seen)) := by
  simp [mutAux, hstep, hm, hp]

/-- One loop iteration where the rewrite function answers with a tail but no
replacement: the `RuntimeError` is raised inside the loop's `try`, so it goes
through the generic handler (it is thrown into the root) without the message
being yielded. -/
theorem mutAux_badpair {σ : Type} (proc : σ → Msg → σ × ProcRes) (kd : σ → Val → Plan)
    (kf : σ → Err → Plan) (fuel : Nat) (s s' : σ) (fr : FrameState) (t : Option Plan)
    (ov : Option Val) (rest : List Entry) (r : Val) (res : List Val) (seen : List Nat)
    (m : Msg) (k : Except Err Val → Plan) (tg : Plan)
    (hstep : resumeF fr (.ok r) = .yielded m k) (hm : m.mid ∉ seen)
    (hp : proc s m = (s', .pair none (some tg))) :
    mutAux proc kd kf (fuel + 1) (.iter s (⟨fr, t, ov⟩ :: rest) (r :: res) seen) =
      mutAux proc kd kf fuel
        (.exc s' (⟨.susp k, t, ov⟩ :: rest) res (m.mid :: seen) .runtimeError) := by
  simp [mutAux, hstep, hm, hp]

/-- One loop iteration where the rewrite function returns bare `None` instead
of a pair: unpacking raises `TypeError` inside the `try`, routed through the
generic handler. -/
theorem mutAux_pynone {σ : Type} (proc : σ → Msg → σ × ProcRes) (kd : σ → Val → Plan)
    (kf : σ → Err → Plan) (fuel : Nat) (s s' : σ) (fr : FrameState) (t : Option Plan)
    (ov : Option Val) (rest : List Entry) (r : Val) (res : List Val) (seen : List Nat)
    (m : Msg) (k : Except Err Val → Plan)
    (hstep : resumeF fr (.ok r) = .yielded m k) (hm : m.mid ∉ seen)
    (hp : proc s m = (s', .pyNone)) :
    mutAux proc kd kf (fuel + 1) (.iter s (⟨fr, t, ov⟩ :: rest) (r :: res) seen) =
      mutAux proc kd kf fuel
        (.exc s' (⟨.susp k, t, ov⟩ :: rest) res (m.mid :: seen) .typeError) := by
  simp [mutAux, hstep, hm, hp]

/-- The exception handler `except Exception as ex: plan.throw(ex)`: the
exception is delivered to the bottom (root) frame, never to a spliced one.
If the root re-raises, the engine's caller sees the fault; if the root runs
to completion the engine ends (pre-PEP-479 `StopIteration` semantics); if
the root catches and yields, the yielded message is discarded and the loop
continues. -/
theorem mutAux_exc {σ : Type} (proc : σ → Msg → σ × ProcRes) (kd : σ → Val → Plan)
    (kf : σ → Err → Plan) (fuel : Nat) (s : σ) (stack : List Entry)
    (res : List Val) (seen : List Nat) (err : Err) (rf : FrameState)
    (rt : Option Plan) (rov : Option Val)
    (hl : stack.getLast? = some ⟨rf, rt, rov⟩) :
    mutAux proc kd kf (fuel + 1) (.exc s stack res seen err) =
      match resumeF rf (.error err) with
      | .raised e' => kf s e'
      | .returned v => kd s v
      | .yielded _ k' => mutAux proc kd kf fuel
          (.iter s (stack.dropLast ++ [⟨.susp k', rt, rov⟩]) res seen) := by
  simp [mutAux, hl]

/-- `mutAux_exc` specialised to a root frame that re-raises the injected
exception (a non-catching root): the fault propagates to the engine's caller
through `kf`. -/
theorem mutAux_exc_reraise {σ : Type} (proc : σ → Msg → σ × ProcRes) (kd : σ → Val → Plan)
    (kf : σ → Err → Plan) (fuel : Nat) (s : σ) (stack : List Entry)
    (res : List Val) (seen : List Nat) (err : Err) (rf : FrameState)
    (rt : Option Plan) (rov : Option Val)
    (hl : stack.getLast? = some ⟨rf, rt, rov⟩)
    (hre : resumeF rf (.error err) = .raised err) :
    mutAux proc kd kf (fuel + 1) (.exc s stack res seen err) = kf s err := by
  rw [mutAux_exc proc kd kf fuel s stack res seen err rf rt rov hl, hre]

theorem runPlan_yield_cons (m : Msg) (k : Except Err Val → Plan)
    (x : Except Err Val) (sc : List (Except Err Val)) :
    runPlan (.yield m k) (x :: sc) =
      ((m :: (runPlan (k x) sc).1), (runPlan (k x) sc).2) := rfl

/-- Prefix a run's message trace. -/
def withMsgs (ms : List Msg) (o : List Msg × Outcome × List (Except Err Val)) :
    List Msg × Outcome × List (Except Err Val) :=
  (ms ++ o.1, o.2)

theorem withMsgs_nil (o : List Msg × Outcome × List (Except Err Val)) :
    withMsgs [] o = o := by
  simp [withMsgs]

/-- Driving the engine across a straight-line frame: when the top frame is a
`msgsThen ms p` generator and every message of `ms` is already seen or
declined (without state change) by the rewrite function, the engine yields
exactly `ms`, consuming one response per message, and ends with the response
to the *last* message of the segment pending for whatever comes next. -/
theorem mutAux_straight {σ : Type} (proc : σ → Msg → σ × ProcRes) (kd : σ → Val → Plan)
    (kf : σ → Err → Plan) :
    ∀ (ms : List Msg) (rs : List Val) (s : σ) (seen : List Nat) (t : Option Plan)
      (ov : Option Val) (rest : List Entry) (res : List Val) (r : Val) (p : Plan)
      (fuel : Nat) (sc : List (Except Err Val)),
      ms.length = rs.length →
      (∀ m' ∈ ms, m'.mid ∈ seen ∨ proc s m' = (s, .pair none none)) →
      runPlan (mutAux proc kd kf (ms.length + fuel)
          (.iter s (⟨.susp (lineK ms p), t, ov⟩ :: rest) (r :: res) seen)) (oks rs ++ sc) =
        withMsgs ms (runPlan (mutAux proc kd kf fuel
          (.iter s (⟨.susp (lineK [] p), t, ov⟩ :: rest)
            (rs.getLastD r :: res) (ms.foldl addSeen seen))) sc) := by
  intro ms
  induction ms with
  | nil =>
      intro rs s seen t ov rest res r p fuel sc hlen _
      have hrs : rs = [] := List.length_eq_zero.mp hlen.symm
      subst hrs
      simp [oks, withMsgs_nil]
  | cons m ms ih =>
      intro rs s seen t ov rest res r p fuel sc hlen hc
      cases rs with
      | nil => simp at hlen
      | cons r' rs' =>
          have hstep : resumeF (.susp (lineK (m :: ms) p)) (.ok r) =
              .yielded m (lineK ms p) := rfl
          have hfuel : (m :: ms).length + fuel = (ms.length + fuel) + 1 := by
            simp [List.length_cons]; omega
          rw [hfuel,
            mutAux_yield_pass proc kd kf (ms.length + fuel) s _ t ov rest r res seen m
              (lineK ms p) hstep (hc m (List.mem_cons_self m ms))]
          rw [show oks (r' :: rs') ++ sc = .ok r' :: (oks rs' ++ sc) from by simp [oks],
            runPlan_yTree_ok]
          have ihe := ih rs' s (addSeen seen m) t ov rest res r' p fuel sc
            (by simpa using hlen)
            (fun m' hm' => (hc m' (List.mem_cons_of_mem m hm')).imp
              (mem_addSeen seen m) id)
          simp only [List.foldl_cons, List.getLastD_cons]
          rw [ihe]
          simp [withMsgs]

/-- The outcome translation between a plan run directly and the same plan
run under `plan_mutator`: the trace, response consumption and faults agree,
but normal completion delivers `plan.close()`'s value, i.e. `None`. -/
def mutOut (o : List Msg × Outcome × List (Except Err Val)) :
    List Msg × Outcome × List (Except Err Val) :=
  match o.2.1 with
  | .completed _ => (o.1, .completed .vnone, o.2.2)
  | _ => o

theorem mutOut_cons (m : Msg) (o : List Msg × Outcome × List (Except Err Val)) :
    mutOut (m :: o.1, o.2) = (m :: (mutOut o).1, (mutOut o).2) := by
  rcases o with ⟨tr, oc, rest⟩
  cases oc <;> simp [mutOut]

/-- Rewrite functions that either decline a message or splice the identity
replacement `single_gen(msg)` around it (optionally with an immediately
exhausted tail) — the shapes `fly_during` produces when given no flyers, with
the plain decline covering the always-pass-through case. -/
def IdProc (proc : Unit → Msg → Unit × ProcRes) : Prop :=
  ∀ m : Msg,
    proc () m = ((), .pair none none) ∨
    proc () m = ((), .pair (some (single_gen m)) (some (.done .vnone))) ∨
    proc () m = ((), .pair (some (single_gen m)) none)

/-- Simulation: under an `IdProc` rewrite function, the engine driven by a
script of ordinary responses yields exactly the messages of the root plan in
order, consumes the same responses at the same points (so each response is
delivered to the root unchanged), faults exactly when the root faults, and
completes with `None` when the root completes. -/
theorem mutAux_idsplice (proc : Unit → Msg → Unit × ProcRes) (hproc : IdProc proc) :
    ∀ (p : Plan) (k : Except Err Val → Plan) (r : Val), k (.ok r) = p →
    ∀ (seen : List Nat) (rs : List Val) (fuel : Nat), 4 * rs.length + 2 ≤ fuel →
      runPlan (mutAux proc (fun _ v => .done v) (fun _ e => .fail e) fuel
          (.iter () [⟨.susp k, none, none⟩] [r] seen)) (oks rs) =
      mutOut (runPlan p (oks rs)) := by
  intro p
  induction p with
  | done v =>
      intro k r hp seen rs fuel hfuel
      obtain ⟨f, rfl⟩ : ∃ f, fuel = f + 1 := ⟨fuel - 1, by omega⟩
      have hstep : resumeF (.susp k) (.ok r) = .returned v := by
        show stepPlan (k (.ok r)) = _
        rw [hp]; rfl
      rw [mutAux_pop_last _ _ _ f () _ none r v [] seen hstep]
      simp [runPlan, mutOut]
  | fail e =>
      intro k r hp seen rs fuel hfuel
      obtain ⟨f, rfl⟩ : ∃ f, fuel = f + 2 := ⟨fuel - 2, by omega⟩
      have hstep : resumeF (.susp k) (.ok r) = .raised e := by
        show stepPlan (k (.ok r)) = _
        rw [hp]; rfl
      rw [show f + 2 = (f + 1) + 1 from rfl,
        mutAux_raise _ _ _ (f + 1) () _ none none [] r [] seen e hstep]
      rw [mutAux_exc_reraise _ _ _ f () _ [] seen e .dead none none (by simp) rfl]
      simp [runPlan, mutOut]
  | yield m k2 ih =>
      intro k r hp seen rs fuel hfuel
      obtain ⟨f, rfl⟩ : ∃ f, fuel = f + 1 := ⟨fuel - 1, by omega⟩
      have hstep : resumeF (.susp k) (.ok r) = .yielded m k2 := by
        show stepPlan (k (.ok r)) = _
        rw [hp]; rfl
      have hpass : (m.mid ∈ seen ∨ proc () m = ((), .pair none none)) →
          runPlan (mutAux proc (fun _ v => .done v) (fun _ e => .fail e) (f + 1)
              (.iter () [⟨.susp k, none, none⟩] [r] seen)) (oks rs) =
            mutOut (runPlan (.yield m k2) (oks rs)) := by
        intro hc
        rw [mutAux_yield_pass _ _ _ f () _ none none [] r [] seen m k2 hstep hc]
        cases rs with
        | nil => simp [oks, runPlan_yTree_nil, runPlan, mutOut]
        | cons r' rs' =>
            rw [show oks (r' :: rs') = .ok r' :: oks rs' from rfl, runPlan_yTree_ok]
            rw [ih (.ok r') k2 r' rfl (addSeen seen m) rs' f
              (by simp only [List.length_cons] at hfuel; omega)]
            rw [runPlan_yield_cons, mutOut_cons]
      by_cases hm : m.mid ∈ seen
      · exact hpass (Or.inl hm)
      · rcases hproc m with hd | hs | hs
        · exact hpass (Or.inr hd)
        · -- identity splice with an empty tail generator
          cases rs with
          | nil =>
              obtain ⟨f2, rfl⟩ : ∃ f2, f = f2 + 1 := ⟨f - 1, by omega⟩
              rw [mutAux_splice _ _ _ (f2 + 1) () () _ none none [] r [] seen m k2
                (single_gen m) (some (.done .vnone)) hstep hm hs]
              rw [mutAux_yield_pass _ _ _ f2 () (unstarted (single_gen m))
                (some (.done .vnone)) none _ .vnone []
                (m.mid :: seen) m (lineK [] (.done .vnone)) rfl
                (Or.inl (List.mem_cons_self _ _))]
              simp [oks, runPlan_yTree_nil, runPlan, mutOut]
          | cons r' rs' =>
              obtain ⟨f4, rfl⟩ : ∃ f4, f = f4 + 3 := ⟨f - 3,
                by simp only [List.length_cons] at hfuel; omega⟩
              rw [mutAux_splice _ _ _ (f4 + 3) () () _ none none [] r [] seen m k2
                (single_gen m) (some (.done .vnone)) hstep hm hs]
              rw [show f4 + 3 = (f4 + 2) + 1 from rfl,
                mutAux_yield_pass _ _ _ (f4 + 2) () (unstarted (single_gen m))
                  (some (.done .vnone)) none _ .vnone []
                  (m.mid :: seen) m (lineK [] (.done .vnone)) rfl
                  (Or.inl (List.mem_cons_self _ _))]
              rw [show addSeen (m.mid :: seen) m = m.mid :: seen from by simp [addSeen]]
              rw [show oks (r' :: rs') = .ok r' :: oks rs' from rfl, runPlan_yTree_ok]
              rw [show f4 + 2 = (f4 + 1) + 1 from rfl,
                mutAux_pop_tail _ _ _ (f4 + 1) () (.susp (lineK [] (.done .vnone)))
                  (.done .vnone) none _ r' .vnone []
                  (m.mid :: seen) rfl]
              rw [show (none : Option Val).getD r' = r' from rfl]
              rw [mutAux_pop_ret _ _ _ f4 () (unstarted (.done .vnone)) (some r') _ []
                .vnone .vnone [] (m.mid :: seen) rfl]
              rw [show (some r' : Option Val).getD .vnone = r' from rfl]
              rw [ih (.ok r') k2 r' rfl (m.mid :: seen) rs' f4
                (by simp only [List.length_cons] at hfuel; omega)]
              rw [runPlan_yield_cons, mutOut_cons]
        · -- identity splice with no tail
          cases rs with
          | nil =>
              obtain ⟨f2, rfl⟩ : ∃ f2, f = f2 + 1 := ⟨f - 1, by omega⟩
              rw [mutAux_splice _ _ _ (f2 + 1) () () _ none none [] r [] seen m k2
                (single_gen m) none hstep hm hs]
              rw [mutAux_yield_pass _ _ _ f2 () (unstarted (single_gen m)) none none _
                .vnone [] (m.mid :: seen) m (lineK [] (.done .vnone)) rfl
                (Or.inl (List.mem_cons_self _ _))]
              simp [oks, runPlan_yTree_nil, runPlan, mutOut]
          | cons r' rs' =>
              obtain ⟨f3, rfl⟩ : ∃ f3, f = f3 + 2 := ⟨f - 2,
                by simp only [List.length_cons] at hfuel; omega⟩
              rw [mutAux_splice _ _ _ (f3 + 2) () () _ none none [] r [] seen m k2
                (single_gen m) none hstep hm hs]
              rw [show f3 + 2 = (f3 + 1) + 1 from rfl,
                mutAux_yield_pass _ _ _ (f3 + 1) () (unstarted (single_gen m)) none none _
                  .vnone [] (m.mid :: seen) m (lineK [] (.done .vnone)) rfl
                  (Or.inl (List.mem_cons_self _ _))]
              rw [show addSeen (m.mid :: seen) m = m.mid :: seen from by simp [addSeen]]
              rw [show oks (r' :: rs') = .ok r' :: oks rs' from rfl, runPlan_yTree_ok]
              rw [mutAux_pop_ret _ _ _ f3 () (.susp (lineK [] (.done .vnone))) none _ []
                r' .vnone [] (m.mid :: seen) rfl]
              rw [show (none : Option Val).getD r' = r' from rfl]
              rw [ih (.ok r') k2 r' rfl (m.mid :: seen) rs' f3
                (by simp only [List.length_cons] at hfuel; omega)]
              rw [runPlan_yield_cons, mutOut_cons]

theorem mutOut_mutOut (o : List Msg × Outcome × List (Except Err Val)) :
    mutOut (mutOut o) = mutOut o := by
  rcases o with ⟨tr, oc, rest⟩
  cases oc <;> simp [mutOut]

/-- `plan_mutator` under an `IdProc` rewrite function behaves like the root
plan, except that normal completion yields `None`. -/
theorem plan_mutator_idsplice (proc : Unit → Msg → Unit × ProcRes) (hproc : IdProc proc)
    (p : Plan) (rs : List Val) (fuel : Nat) (hfuel : 4 * rs.length + 2 ≤ fuel) :
    runPlan (plan_mutator fuel p proc ()) (oks rs) = mutOut (runPlan p (oks rs)) :=
  mutAux_idsplice proc hproc p (lineK [] p) .vnone rfl [] rs fuel hfuel

/- ## `fly_during` -/

/-- A flyer as `fly_during` sees it: the target object plus the identity
tokens of the `kickoff` and `collect` Messages constructed for it. -/
structure Flyer : Type where
  obj : Nat
  kickMid : Nat
  collMid : Nat

/-- `insert_after_open` from `fly_during`: on `open_run`, splice
`single_gen(msg)` with the kickoff messages as the tail; otherwise decline. -/
def afterOpenProc (kmsgs : List Msg) : Unit → Msg → Unit × ProcRes := fun s m =>
  (s, if m.command = "open_run" then
        .pair (some (single_gen m)) (some (msgsPlan kmsgs .vnone))
      else .pair none none)

/-- `insert_before_close` from `fly_during`: on `close_run`, splice a plan
that yields the collect messages and then the original message; no tail. -/
def beforeCloseProc (cmsgs : List Msg) : Unit → Msg → Unit × ProcRes := fun s m =>
  (s, if m.command = "close_run" then
        .pair (some (msgsPlan (cmsgs ++ [m]) .vnone)) none
      else .pair none none)

/-- `fly_during(plan, flyers)`: two nested `plan_mutator` applications, one
inserting kickoff messages after `open_run`, one inserting a group wait (only
when there are flyers) and the collect messages before `close_run`. -/
def fly_during (flyers : List Flyer) (grp : String) (waitMid : Nat) (fuel : Nat)
    (p : Plan) : Plan :=
  let kickoff_msgs : List Msg :=
    flyers.map fun f => ⟨"kickoff", some f.obj, [], [("block_group", .vstr grp)], f.kickMid⟩
  let collect_msgs0 : List Msg := flyers.map fun f => ⟨"collect", some f.obj, [], [], f.collMid⟩
  let collect_msgs : List Msg :=
    match flyers with
    | [] => collect_msgs0
    | _ :: _ => ⟨"wait", none, [.vstr grp], [], waitMid⟩ :: collect_msgs0
  plan_mutator fuel (plan_mutator fuel p (afterOpenProc kickoff_msgs) ())
    (beforeCloseProc collect_msgs) ()

theorem passProc_idProc : IdProc passProc := fun _ => Or.inl rfl

theorem afterOpenProc_nil_idProc : IdProc (afterOpenProc []) := by
  intro m
  by_cases h : m.command = "open_run"
  · exact Or.inr (Or.inl (by simp [afterOpenProc, h]; rfl))
  · exact Or.inl (by simp [afterOpenProc, h])

theorem beforeCloseProc_nil_idProc : IdProc (beforeCloseProc []) := by
  intro m
  by_cases h : m.command = "close_run"
  · exact Or.inr (Or.inr (by simp [beforeCloseProc, h]; rfl))
  · exact Or.inl (by simp [beforeCloseProc, h])

instance : DecidableEq (Except Err Val) := fun x y =>
  match x, y with
  | .ok a, .ok b => decidable_of_iff (a = b) (by simp)
  | .error a, .error b => decidable_of_iff (a = b) (by simp)
  | .ok _, .error _ => isFalse (by simp)
  | .error _, .ok _ => isFalse (by simp)

theorem mutOut_fst (o : List Msg × Outcome × List (Except Err Val)) :
    (mutOut o).1 = o.1 := by
  rcases o with ⟨tr, oc, rest⟩
  cases oc <;> simp [mutOut]

theorem mutOut_rest (o : List Msg × Outcome × List (Except Err Val)) :
    (mutOut o).2.2 = o.2.2 := by
  rcases o with ⟨tr, oc, rest⟩
  cases oc <;> simp [mutOut]

theorem withMsgs_cons (m : Msg) (tr : List Msg)
    (o : List Msg × Outcome × List (Except Err Val)) :
    withMsgs (m :: tr) o = (m :: (withMsgs tr o).1, (withMsgs tr o).2) := by
  simp [withMsgs]

/-- Running a delegation `bindP p f`: run `p`; on completion or fault, hand
the outcome to `f` and keep running on the leftover script. -/
theorem runPlan_bindP :
    ∀ (p : Plan) (f : Except Err Val → Plan) (sc : List (Except Err Val))
      (tr : List Msg) (oc : Outcome) (rest : List (Except Err Val)),
      runPlan p sc = (tr, oc, rest) →
      runPlan (bindP p f) sc =
        match oc with
        | .completed v => withMsgs tr (runPlan (f (.ok v)) rest)
        | .faulted e => withMsgs tr (runPlan (f (.error e)) rest)
        | .stuck => (tr, .stuck, rest) := by
  intro p
  induction p with
  | done v =>
      intro f sc tr oc rest h
      simp only [runPlan, Prod.mk.injEq] at h
      obtain ⟨rfl, rfl, rfl⟩ := h
      simp [bindP, withMsgs_nil]
  | fail e =>
      intro f sc tr oc rest h
      simp only [runPlan, Prod.mk.injEq] at h
      obtain ⟨rfl, rfl, rfl⟩ := h
      simp [bindP, withMsgs_nil]
  | yield m k ih =>
      intro f sc tr oc rest h
      cases sc with
      | nil =>
          simp only [runPlan, Prod.mk.injEq] at h
          obtain ⟨rfl, rfl, rfl⟩ := h
          simp [bindP, runPlan]
      | cons x sc' =>
          rw [runPlan_yield_cons] at h
          simp only [Prod.mk.injEq] at h
          obtain ⟨rfl, h2⟩ := h
          have e1 : (runPlan (k x) sc').2.1 = oc := by rw [h2]
          have e2 : (runPlan (k x) sc').2.2 = rest := by rw [h2]
          have hx := ih x f sc' (runPlan (k x) sc').1 oc rest (by rw [← e1, ← e2])
          rw [show bindP (.yield m k) f = .yield m (fun x => bindP (k x) f) from rfl,
            runPlan_yield_cons, hx, ← e2]
          cases oc <;> simp [withMsgs]

theorem runPlan_bindP_ok (p : Plan) (f : Except Err Val → Plan)
    (sc : List (Except Err Val)) (tr : List Msg) (v : Val)
    (rest : List (Except Err Val)) (h : runPlan p sc = (tr, .completed v, rest)) :
    runPlan (bindP p f) sc = withMsgs tr (runPlan (f (.ok v)) rest) := by
  rw [runPlan_bindP p f sc tr (.completed v) rest h]

theorem runPlan_bindP_fault (p : Plan) (f : Except Err Val → Plan)
    (sc : List (Except Err Val)) (tr : List Msg) (e : Err)
    (rest : List (Except Err Val)) (h : runPlan p sc = (tr, .faulted e, rest)) :
    runPlan (bindP p f) sc = withMsgs tr (runPlan (f (.error e)) rest) := by
  rw [runPlan_bindP p f sc tr (.faulted e) rest h]

theorem runPlan_bindOk_ok (p : Plan) (g : Val → Plan)
    (sc : List (Except Err Val)) (tr : List Msg) (v : Val)
    (rest : List (Except Err Val)) (h : runPlan p sc = (tr, .completed v, rest)) :
    runPlan (bindOk p g) sc = withMsgs tr (runPlan (g v) rest) :=
  runPlan_bindP_ok p _ sc tr v rest h

/- ## Claim C5: `finalize` -/

/-- C5: for every main plan and finalize plan combined with `finalize`:
if the main plan faults after producing some messages, every message of the
finalize plan is observed exactly once, after the main plan's messages and
before the fault reaches the caller, and the fault is then delivered; if the
main plan completes normally, the finalize plan's messages follow the main
plan's and the combination completes with the main plan's completion value
(the finalize plan's own completion value `w` is discarded in both cases). -/
theorem c5_finalize_guarantee :
    (∀ (p q : Plan) (sc : List (Except Err Val)) (tr : List Msg) (e : Err)
       (rest : List (Except Err Val)) (trq : List Msg) (w : Val)
       (rest' : List (Except Err Val)),
       runPlan p sc = (tr, .faulted e, rest) →
       runPlan q rest = (trq, .completed w, rest') →
       runPlan (finalize p q) sc = (tr ++ trq, .faulted e, rest')) ∧
    (∀ (p q : Plan) (sc : List (Except Err Val)) (tr : List Msg) (v : Val)
       (rest : List (Except Err Val)) (trq : List Msg) (w : Val)
       (rest' : List (Except Err Val)),
       runPlan p sc = (tr, .completed v, rest) →
       runPlan q rest = (trq, .completed w, rest') →
       runPlan (finalize p q) sc = (tr ++ trq, .completed v, rest')) := by
  constructor
  · intro p q sc tr e rest trq w rest' hp hq
    have h1 : runPlan (finalize p q) sc =
        withMsgs tr (runPlan (bindOk q fun _ => Plan.fail e) rest) :=
      runPlan_bindP_fault p _ sc tr e rest hp
    have h2 : runPlan (bindOk q fun _ => Plan.fail e) rest =
        withMsgs trq (runPlan (Plan.fail e) rest') :=
      runPlan_bindOk_ok q _ rest trq w rest' hq
    rw [h1, h2]
    simp [runPlan, withMsgs]
  · intro p q sc tr v rest trq w rest' hp hq
    have h1 : runPlan (finalize p q) sc =
        withMsgs tr (runPlan (bindOk q fun _ => Plan.done v) rest) :=
      runPlan_bindP_ok p _ sc tr v rest hp
    have h2 : runPlan (bindOk q fun _ => Plan.done v) rest =
        withMsgs trq (runPlan (Plan.done v) rest') :=
      runPlan_bindOk_ok q _ rest trq w rest' hq
    rw [h1, h2]
    simp [runPlan, withMsgs]

/-- Witness for C5 at a concrete instance: a main plan that yields two
messages and then raises, finalized by a one-message cleanup plan, and a
normally completing variant. -/
theorem c5_finalize_guarantee_witness :
    runPlan (finalize
        (msgsThen [⟨"set", some 1, [.vint 1], [], 1⟩, ⟨"trigger", some 2, [], [], 2⟩]
          (.fail (.user 7)))
        (single_gen ⟨"unstage", some 1, [], [], 3⟩))
      (oks [.vnone, .vnone, .vnone]) =
      ([⟨"set", some 1, [.vint 1], [], 1⟩, ⟨"trigger", some 2, [], [], 2⟩,
        ⟨"unstage", some 1, [], [], 3⟩], .faulted (.user 7), []) ∧
    runPlan (finalize
        (msgsPlan [⟨"read", some 1, [], [], 4⟩] (.vint 9))
        (single_gen ⟨"unstage", some 1, [], [], 5⟩))
      (oks [.vnone, .vnone]) =
      ([⟨"read", some 1, [], [], 4⟩, ⟨"unstage", some 1, [], [], 5⟩],
        .completed (.vint 9), []) := by
  constructor
  · exact c5_finalize_guarantee.1
      (msgsThen [⟨"set", some 1, [.vint 1], [], 1⟩, ⟨"trigger", some 2, [], [], 2⟩]
        (.fail (.user 7)))
      (single_gen ⟨"unstage", some 1, [], [], 3⟩)
      (oks [.vnone, .vnone, .vnone])
      [⟨"set", some 1, [.vint 1], [], 1⟩, ⟨"trigger", some 2, [], [], 2⟩]
      (.user 7) [.ok .vnone] [⟨"unstage", some 1, [], [], 3⟩] .vnone []
      (by decide) (by decide)
  · exact c5_finalize_guarantee.2
      (msgsPlan [⟨"read", some 1, [], [], 4⟩] (.vint 9))
      (single_gen ⟨"unstage", some 1, [], [], 5⟩)
      (oks [.vnone, .vnone])
      [⟨"read", some 1, [], [], 4⟩] (.vint 9) [.ok .vnone]
      [⟨"unstage", some 1, [], [], 5⟩] .vnone []
      (by decide) (by decide)

/- ## Claims C2 and C10: pass-through and empty `fly_during` -/

/-- C2 (amended): with the always-declining rewrite function, the engine
yields exactly the root plan's messages in order and delivers each
caller-supplied response to the root unchanged (the whole run triple — trace,
outcome, leftover script — matches the direct run pointwise), *but* the
engine's completion value is `None` (the value of `plan.close()` on the
already-exhausted root), not the root plan's own completion value. -/
theorem c2_pass_through_equiv (p : Plan) (rs : List Val) (fuel : Nat)
    (hfuel : 4 * rs.length + 2 ≤ fuel) :
    runPlan (plan_mutator fuel p passProc ()) (oks rs) = mutOut (runPlan p (oks rs)) :=
  plan_mutator_idsplice passProc passProc_idProc p rs fuel hfuel

theorem c2_pass_through_equiv_witness :
    runPlan (plan_mutator 10 (msgsPlan [⟨"read", some 1, [], [], 5⟩] (.vint 3)) passProc ())
        (oks [.vnone]) =
      mutOut (runPlan (msgsPlan [⟨"read", some 1, [], [], 5⟩] (.vint 3)) (oks [.vnone])) :=
  c2_pass_through_equiv (msgsPlan [⟨"read", some 1, [], [], 5⟩] (.vint 3)) [.vnone] 10
    (by decide)

/-- C2 counterexample to the claim as stated: on a root plan that completes
with `42`, `plan_mutator` with the pass-through rewrite completes with `None`
(`return plan.close()`), not with the root plan's completion value. -/
theorem c2_completion_value_counterexample :
    (runPlan (plan_mutator 10 (Plan.done (.vint 42)) passProc ()) []).2.1 ≠
      (runPlan (Plan.done (.vint 42)) []).2.1 := by
  decide

/-- C10: `fly_during` with an empty flyers collection is observationally the
unwrapped plan: same message sequence in the same order, every response
(including those for `open_run` and `close_run`) delivered to the underlying
plan unchanged, with the same leftover script; only the completion value is
replaced by `None`, an artifact of `plan_mutator` that C10 does not mention.
The theorem quantifies over arbitrary root plans, whose later messages may
depend on earlier responses, so trace equality for all plans and scripts
subsumes the unchanged delivery of each response. -/
theorem c10_fly_during_empty (p : Plan) (grp : String) (waitMid : Nat)
    (rs : List Val) (fuel : Nat) (hfuel : 4 * rs.length + 2 ≤ fuel) :
    runPlan (fly_during [] grp waitMid fuel p) (oks rs) =
      mutOut (runPlan p (oks rs)) := by
  have hdef : fly_during [] grp waitMid fuel p =
      plan_mutator fuel (plan_mutator fuel p (afterOpenProc []) ())
        (beforeCloseProc []) () := rfl
  rw [hdef,
    plan_mutator_idsplice _ beforeCloseProc_nil_idProc _ rs fuel hfuel,
    plan_mutator_idsplice _ afterOpenProc_nil_idProc p rs fuel hfuel,
    mutOut_mutOut]

theorem c10_fly_during_empty_witness :
    runPlan (fly_during [] "flyers-x" 9 30
        (msgsPlan [⟨"open_run", none, [], [], 1⟩, ⟨"create", none, [], [], 2⟩,
          ⟨"close_run", none, [], [], 3⟩] (.vint 5)))
      (oks [.vnone, .vint 11, .vnone]) =
      mutOut (runPlan
        (msgsPlan [⟨"open_run", none, [], [], 1⟩, ⟨"create", none, [], [], 2⟩,
          ⟨"close_run", none, [], [], 3⟩] (.vint 5))
        (oks [.vnone, .vint 11, .vnone])) :=
  c10_fly_during_empty
    (msgsPlan [⟨"open_run", none, [], [], 1⟩, ⟨"create", none, [], [], 2⟩,
      ⟨"close_run", none, [], [], 3⟩] (.vint 5))
    "flyers-x" 9 [.vnone, .vint 11, .vnone] 30 (by decide)

/- ## Claim C1: response routing across splices -/

theorem plan_mutator_def {σ : Type} (fuel : Nat) (p : Plan)
    (proc : σ → Msg → σ × ProcRes) (s₀ : σ) :
    plan_mutator fuel p proc s₀ =
      mutAux proc (fun _ v => .done v) (fun _ e => .fail e) fuel
        (.iter s₀ [⟨unstarted p, none, none⟩] [.vnone] []) := rfl

theorem unstarted_msgsThen (ms : List Msg) (p : Plan) :
    unstarted (msgsThen ms p) = .susp (lineK ms p) := rfl

/-- A message whose argument records the response its issuing frame was
resumed with: yielding it makes response routing observable in the trace. -/
def probeMsg (pmid : Nat) (r : Val) : Msg := ⟨"probe", none, [r], [], pmid⟩

/-- The owning frame of claim C1: it issues one Message, then reports
whatever response it receives through a `probeMsg`, then returns `rv2`. -/
def probeK (pmid : Nat) (rv2 : Val) : Except Err Val → Plan := fun x =>
  match x with
  | .ok v => yieldM (probeMsg pmid v) fun _ => .done rv2
  | .error e => .fail e

/-- A rewrite function that splices `repl` (with optional tail `tg`) for the
one Message with identity `tmid` and declines everything else. -/
def spliceProc (tmid : Nat) (repl : Plan) (tg : Option Plan) :
    Unit → Msg → Unit × ProcRes := fun s m =>
  (s, if m.mid = tmid then .pair (some repl) tg else .pair none none)

/-- Ending shared by both C1 cases: once the owning frame is on top again
with response `last` pending, it yields the probe carrying `last` and the
engine then completes. -/
theorem c1_probe_end (pmid : Nat) (rv2 last w : Val) (seen : List Nat)
    (tmid : Nat) (repl : Plan) (tg : Option Plan) (f : Nat) (hpm : pmid ≠ tmid) :
    runPlan (mutAux (spliceProc tmid repl tg) (fun _ v => .done v) (fun _ e => .fail e)
        (f + 2) (.iter () [⟨.susp (probeK pmid rv2), none, none⟩] [last] seen)) [.ok w] =
      ([probeMsg pmid last], .completed .vnone, []) := by
  have hstep : resumeF (.susp (probeK pmid rv2)) (.ok last) =
      .yielded (probeMsg pmid last) (lineK [] (.done rv2)) := rfl
  rw [show f + 2 = (f + 1) + 1 from rfl,
    mutAux_yield_pass _ _ _ (f + 1) () (.susp (probeK pmid rv2)) none none [] last [] seen
      (probeMsg pmid last) (lineK [] (.done rv2)) hstep
      (Or.inr (by simp [spliceProc, probeMsg, hpm]))]
  rw [runPlan_yTree_ok]
  rw [mutAux_pop_last _ _ _ f () (.susp (lineK [] (.done rv2))) none w rv2 [] _ rfl]
  simp [runPlan]

/-- C1: for every splice performed by `plan_mutator` — replacement plan alone
or replacement plus tail — the response that reaches the frame which issued
the original Message (observable as the argument of the probe that frame
yields next) is the response the caller supplied for the *last* Message of
the replacement plan `ms`; when a tail is present, the tail's messages `tms`
run in between, but the responses `trs` supplied to them and the tail's own
completion value `tv` are discarded and never reach the owning frame. -/
theorem c1_splice_response_routing
    (mo : Msg) (pmid : Nat) (ms tms : List Msg) (rs trs : List Val)
    (useTail : Bool) (rv tv rv2 w : Val) (fuel : Nat)
    (_hne : ms ≠ [])
    (hlen : ms.length = rs.length)
    (hlent : (cond useTail tms []).length = trs.length)
    (hmid : ∀ m' ∈ ms, m'.mid ≠ mo.mid)
    (hmidt : ∀ m' ∈ tms, m'.mid ≠ mo.mid)
    (hpm : pmid ≠ mo.mid)
    (hfuel : ms.length + tms.length + 8 ≤ fuel) :
    runPlan
      (plan_mutator fuel (.yield mo (probeK pmid rv2))
        (spliceProc mo.mid (msgsPlan ms rv)
          (cond useTail (some (msgsPlan tms tv)) none)) ())
      (oks (rs ++ trs ++ [w])) =
      (ms ++ cond useTail tms [] ++ [probeMsg pmid (rs.getLastD .vnone)],
        .completed .vnone, []) := by
  have hstep0 : resumeF (unstarted (.yield mo (probeK pmid rv2))) (.ok .vnone) =
      .yielded mo (probeK pmid rv2) := rfl
  cases useTail with
  | false =>
      simp only [cond_false] at hlent ⊢
      have htrs : trs = [] := List.length_eq_zero.mp (by simpa using hlent.symm)
      subst htrs
      rw [plan_mutator_def]
      obtain ⟨f1, rfl⟩ : ∃ f1, fuel = f1 + 1 := ⟨fuel - 1, by omega⟩
      rw [mutAux_splice (spliceProc mo.mid (msgsPlan ms rv) none) _ _ f1 () ()
        (unstarted (.yield mo (probeK pmid rv2))) none none [] .vnone [] [] mo
        (probeK pmid rv2) (msgsPlan ms rv) none hstep0 (by simp)
        (by simp [spliceProc])]
      rw [show unstarted (msgsPlan ms rv) = .susp (lineK ms (.done rv)) from rfl]
      rw [show oks (rs ++ [] ++ [w]) = oks rs ++ [.ok w] from by simp [oks]]
      obtain ⟨f2, rfl⟩ : ∃ f2, f1 = ms.length + (f2 + 3) :=
        ⟨f1 - ms.length - 3, by omega⟩
      rw [mutAux_straight (spliceProc mo.mid (msgsPlan ms rv) none) _ _ ms rs ()
        [mo.mid] none none _ [] .vnone (.done rv) (f2 + 3) [.ok w]
        hlen (fun m' hm' => Or.inr (by simp [spliceProc, hmid m' hm']))]
      rw [show (f2 + 3 : Nat) = (f2 + 2) + 1 from rfl]
      rw [mutAux_pop_ret (spliceProc mo.mid (msgsPlan ms rv) none) _ _ (f2 + 2) ()
        (.susp (lineK [] (.done rv))) none _ [] (rs.getLastD .vnone) rv [] _ rfl]
      rw [show (none : Option Val).getD (rs.getLastD .vnone) = rs.getLastD .vnone from rfl]
      rw [c1_probe_end pmid rv2 (rs.getLastD .vnone) w _ mo.mid _ _ f2 hpm]
      simp [withMsgs]
  | true =>
      simp only [cond_true] at hlent ⊢
      rw [plan_mutator_def]
      obtain ⟨f1, rfl⟩ : ∃ f1, fuel = f1 + 1 := ⟨fuel - 1, by omega⟩
      rw [mutAux_splice (spliceProc mo.mid (msgsPlan ms rv) (some (msgsPlan tms tv)))
        _ _ f1 () () (unstarted (.yield mo (probeK pmid rv2))) none none [] .vnone [] []
        mo (probeK pmid rv2) (msgsPlan ms rv) (some (msgsPlan tms tv)) hstep0 (by simp)
        (by simp [spliceProc])]
      rw [show unstarted (msgsPlan ms rv) = .susp (lineK ms (.done rv)) from rfl]
      rw [show oks (rs ++ trs ++ [w]) = oks rs ++ (oks trs ++ [.ok w]) from by simp [oks]]
      obtain ⟨f2, rfl⟩ : ∃ f2, f1 = ms.length + (f2 + 1) :=
        ⟨f1 - ms.length - 1, by omega⟩
      rw [mutAux_straight (spliceProc mo.mid (msgsPlan ms rv) (some (msgsPlan tms tv)))
        _ _ ms rs () [mo.mid] (some (msgsPlan tms tv)) none _ [] .vnone (.done rv)
        (f2 + 1) _ hlen (fun m' hm' => Or.inr (by simp [spliceProc, hmid m' hm']))]
      rw [mutAux_pop_tail (spliceProc mo.mid (msgsPlan ms rv) (some (msgsPlan tms tv)))
        _ _ f2 () (.susp (lineK [] (.done rv))) (msgsPlan tms tv) none _
        (rs.getLastD .vnone) rv [] _ rfl]
      rw [show (none : Option Val).getD (rs.getLastD .vnone) = rs.getLastD .vnone from rfl]
      rw [show unstarted (msgsPlan tms tv) = .susp (lineK tms (.done tv)) from rfl]
      obtain ⟨f3, rfl⟩ : ∃ f3, f2 = tms.length + (f3 + 3) :=
        ⟨f2 - tms.length - 3, by omega⟩
      rw [mutAux_straight (spliceProc mo.mid (msgsPlan ms rv) (some (msgsPlan tms tv)))
        _ _ tms trs () _ none (some (rs.getLastD .vnone)) _ [] .vnone (.done tv)
        (f3 + 3) [.ok w] (by simpa using hlent)
        (fun m' hm' => Or.inr (by simp [spliceProc, hmidt m' hm']))]
      rw [show (f3 + 3 : Nat) = (f3 + 2) + 1 from rfl]
      rw [mutAux_pop_ret (spliceProc mo.mid (msgsPlan ms rv) (some (msgsPlan tms tv)))
        _ _ (f3 + 2) () (.susp (lineK [] (.done tv))) (some (rs.getLastD .vnone)) _ []
        (trs.getLastD .vnone) tv [] _ rfl]
      rw [show (some (rs.getLastD .vnone) : Option Val).getD (trs.getLastD .vnone) =
        rs.getLastD .vnone from rfl]
      rw [c1_probe_end pmid rv2 (rs.getLastD .vnone) w _ mo.mid _ _ f3 hpm]
      simp [withMsgs]

/-- Witness for C1 with a two-message replacement, a one-message tail, and
distinct responses everywhere: the owning frame's probe reports `vint 22`,
the response to the last replacement message — not the tail response
`vint 33`, not the tail completion `vint 44`. -/
theorem c1_splice_response_routing_witness :
    runPlan
      (plan_mutator 20 (.yield ⟨"open_run", none, [], [], 1⟩ (probeK 9 (.vint 5)))
        (spliceProc 1
          (msgsPlan [⟨"kickoff", some 3, [], [], 11⟩, ⟨"open_run", none, [], [], 12⟩]
            (.vint 99))
          (some (msgsPlan [⟨"collect", some 3, [], [], 13⟩] (.vint 44)))) ())
      (oks ([.vint 21, .vint 22] ++ [.vint 33] ++ [.vint 7])) =
      ([⟨"kickoff", some 3, [], [], 11⟩, ⟨"open_run", none, [], [], 12⟩] ++
        [⟨"collect", some 3, [], [], 13⟩] ++ [probeMsg 9 (.vint 22)],
        .completed .vnone, []) := by
  have h := c1_splice_response_routing ⟨"open_run", none, [], [], 1⟩ 9
    [⟨"kickoff", some 3, [], [], 11⟩, ⟨"open_run", none, [], [], 12⟩]
    [⟨"collect", some 3, [], [], 13⟩]
    [.vint 21, .vint 22] [.vint 33] true (.vint 99) (.vint 44) (.vint 5) (.vint 7) 20
    (by decide) (by decide) (by decide)
    (by decide) (by decide) (by decide) (by decide)
  simpa using h

/- ## Claim C3: splicing background starts before `open_run` -/

/-- The C3 rewrite function: intercept the `open_run` Message and splice a
plan that yields two background-start (`kickoff`) Messages followed by the
original `open_run` instance itself; no tail. -/
def openRunSpliceProc (b1 b2 : Msg) : Unit → Msg → Unit × ProcRes := fun s m =>
  (s, if m.command = "open_run" then .pair (some (msgsPlan [b1, b2, m] .vnone)) none
      else .pair none none)

/-- C3: with the `open_run` interception above, the engine yields
background-start, background-start, open_run, in that order (the re-surfacing
`open_run` instance is already seen, so it is yielded without being rewritten
again), and the response `v` supplied for `open_run` reaches the issuing
frame exactly as in the splice-free run — in both runs the frame's next
message is the probe carrying `v`, and the responses `r1`, `r2` to the
background starts are consumed by the engine without reaching the root. -/
theorem c3_open_run_scenario (r1 r2 v w : Val) :
    runPlan
      (plan_mutator 20 (.yield ⟨"open_run", none, [], [], 1⟩ (probeK 99 (.vint 5)))
        (openRunSpliceProc ⟨"kickoff", some 21, [], [], 11⟩
          ⟨"kickoff", some 22, [], [], 12⟩) ())
      (oks [r1, r2, v, w]) =
      ([⟨"kickoff", some 21, [], [], 11⟩, ⟨"kickoff", some 22, [], [], 12⟩,
        ⟨"open_run", none, [], [], 1⟩, probeMsg 99 v], .completed .vnone, []) ∧
    runPlan (.yield ⟨"open_run", none, [], [], 1⟩ (probeK 99 (.vint 5)))
      (oks [v, w]) =
      ([⟨"open_run", none, [], [], 1⟩, probeMsg 99 v], .completed (.vint 5), []) :=
  ⟨rfl, rfl⟩

/- ## Claim C4: faults are injected into the root frame -/

/-- C4: whenever resuming the engine raises a fault while a spliced frame is
active — either the caller throws into the engine at a yield point (first
conjunct), or resuming the top frame itself raises (second conjunct) — the
exception is delivered to the *root* frame: the run's outcome is exactly what
the root's exception continuation dictates, for *every* possible spliced
frame `ks`/`t`/`ov` (in particular for spliced frames that would catch the
exception), and with a non-catching root the fault `e` propagates to the
engine's caller. -/
theorem c4_fault_routed_to_root :
    (∀ (σ : Type) (proc : σ → Msg → σ × ProcRes) (fuel : Nat) (s : σ)
       (ks kroot ksN : Except Err Val → Plan) (t : Option Plan) (ov : Option Val)
       (r : Val) (res : List Val) (seen : List Nat) (m : Msg) (e : Err)
       (sc : List (Except Err Val)),
       resumeF (.susp ks) (.ok r) = .yielded m ksN →
       m.mid ∈ seen →
       (∀ e', kroot (.error e') = .fail e') →
       runPlan (mutAux proc (fun _ v => .done v) (fun _ e => .fail e) (fuel + 2)
           (.iter s [⟨.susp ks, t, ov⟩, ⟨.susp kroot, none, none⟩] (r :: res) seen))
         (.error e :: sc) =
         ([m], .faulted e, sc)) ∧
    (∀ (σ : Type) (proc : σ → Msg → σ × ProcRes) (fuel : Nat) (s : σ)
       (ks kroot : Except Err Val → Plan) (t : Option Plan) (ov : Option Val)
       (r : Val) (res : List Val) (seen : List Nat) (e : Err)
       (sc : List (Except Err Val)),
       ks (.ok r) = .fail e →
       (∀ e', kroot (.error e') = .fail e') →
       runPlan (mutAux proc (fun _ v => .done v) (fun _ e => .fail e) (fuel + 2)
           (.iter s [⟨.susp ks, t, ov⟩, ⟨.susp kroot, none, none⟩] (r :: res) seen))
         sc =
         ([], .faulted e, sc)) := by
  constructor
  · intro σ proc fuel s ks kroot ksN t ov r res seen m e sc hstep hm hroot
    rw [show (fuel + 2 : Nat) = (fuel + 1) + 1 from rfl,
      mutAux_yield_pass proc _ _ (fuel + 1) s (.susp ks) t ov _ r res seen m ksN
        hstep (Or.inl hm)]
    rw [runPlan_yTree_err]
    have hre : resumeF (.susp kroot) (.error e) = .raised e := by
      show stepPlan (kroot (.error e)) = _
      rw [hroot e]; rfl
    rw [mutAux_exc_reraise proc _ _ fuel s _ res (addSeen seen m) e
      (.susp kroot) none none (by simp) hre]
    simp [runPlan]
  · intro σ proc fuel s ks kroot t ov r res seen e sc hks hroot
    have hstep : resumeF (.susp ks) (.ok r) = .raised e := by
      show stepPlan (ks (.ok r)) = _
      rw [hks]; rfl
    rw [show (fuel + 2 : Nat) = (fuel + 1) + 1 from rfl,
      mutAux_raise proc _ _ (fuel + 1) s (.susp ks) t ov _ r res seen e hstep]
    have hre : resumeF (.susp kroot) (.error e) = .raised e := by
      show stepPlan (kroot (.error e)) = _
      rw [hroot e]; rfl
    rw [mutAux_exc_reraise proc _ _ fuel s _ res seen e
      (.susp kroot) none none (by simp) hre]
    simp [runPlan]

/-- Witness for C4: a spliced `single_gen` frame is active above a
non-catching root; the caller injects `user 3` at the yield (first part) or
the spliced frame raises `user 4` when resumed (second part); both faults go
to the root and out to the caller. -/
theorem c4_fault_routed_to_root_witness :
    runPlan (mutAux passProc (fun _ v => .done v) (fun _ e => .fail e) 7
        (.iter () [⟨.susp (lineK [] (single_gen ⟨"open_run", none, [], [], 1⟩)),
            none, none⟩,
          ⟨.susp (lineK [] (.done .vnone)), none, none⟩] [.vnone] [1]))
      [.error (.user 3)] =
      ([⟨"open_run", none, [], [], 1⟩], .faulted (.user 3), []) ∧
    runPlan (mutAux passProc (fun _ v => .done v) (fun _ e => .fail e) 7
        (.iter () [⟨.susp (fun _ => .fail (.user 4)), none, none⟩,
          ⟨.susp (lineK [] (.done .vnone)), none, none⟩] [.vnone] [1]))
      [] =
      ([], .faulted (.user 4), []) := by
  constructor
  · exact c4_fault_routed_to_root.1 Unit passProc 5 ()
      (lineK [] (single_gen ⟨"open_run", none, [], [], 1⟩))
      (lineK [] (.done .vnone)) (lineK [] (.done .vnone)) none none
      .vnone [] [1] ⟨"open_run", none, [], [], 1⟩ (.user 3) []
      rfl (by decide) (fun _ => rfl)
  · exact c4_fault_routed_to_root.2 Unit passProc 5 ()
      (fun _ => .fail (.user 4)) (lineK [] (.done .vnone)) none none
      .vnone [] [1] (.user 4) []
      rfl (fun _ => rfl)

/- ## Claim C8: a tail with no replacement is a fatal error -/

theorem mem_of_mem_foldl_addSeen :
    ∀ (ms : List Msg) (seen : List Nat) (a : Nat),
      a ∈ ms.foldl addSeen seen → a ∈ seen ∨ a ∈ ms.map Msg.mid := by
  intro ms
  induction ms with
  | nil => intro seen a h; exact Or.inl h
  | cons m ms ih =>
      intro seen a h
      rcases ih (addSeen seen m) a h with h' | h'
      · unfold addSeen at h'
        split at h'
        · exact Or.inl h'
        · rcases List.mem_cons.mp h' with h'' | h''
          · exact Or.inr (by simp [h''])
          · exact Or.inl h''
      · exact Or.inr (by simp; right; simpa using h')

/-- C8: if the rewrite function answers a fresh Message `m` with
`(absent, tailPlan-present)`, the engine raises `RuntimeError` at once: the
trace contains only the Messages yielded before `m` was produced — neither
`m` nor any replacement for it is ever yielded — and the script beyond that
prefix is untouched.  (The error is raised inside the loop's `try`, so it is
first thrown into the root; the non-catching root `msgsThen pre (yieldM m k)`
re-raises it to the engine's caller.) -/
theorem c8_tail_without_replacement (σ : Type) (proc : σ → Msg → σ × ProcRes)
    (s₀ s' : σ) (pre : List Msg) (rsPre : List Val) (m : Msg) (k : Val → Plan)
    (tg : Plan) (fuel : Nat) (sc : List (Except Err Val))
    (hlen : pre.length = rsPre.length)
    (hpre : ∀ m' ∈ pre, proc s₀ m' = (s₀, .pair none none))
    (hm : m.mid ∉ pre.map Msg.mid)
    (hproc : proc s₀ m = (s', .pair none (some tg)))
    (hfuel : pre.length + 3 ≤ fuel) :
    runPlan (plan_mutator fuel (msgsThen pre (yieldM m k)) proc s₀) (oks rsPre ++ sc) =
      (pre, .faulted .runtimeError, sc) := by
  rw [plan_mutator_def]
  rw [show unstarted (msgsThen pre (yieldM m k)) = .susp (lineK pre (yieldM m k)) from rfl]
  obtain ⟨f, rfl⟩ : ∃ f, fuel = pre.length + (f + 1 + 1 + 1) :=
    ⟨fuel - pre.length - 3, by omega⟩
  rw [mutAux_straight proc _ _ pre rsPre s₀ [] none none [] [] .vnone (yieldM m k)
    (f + 1 + 1 + 1) sc hlen (fun m' hm' => Or.inr (hpre m' hm'))]
  have hstep : resumeF (.susp (lineK [] (yieldM m k))) (.ok (rsPre.getLastD .vnone)) =
      .yielded m (fun x => match x with | .ok v => k v | .error e => .fail e) := rfl
  have hmem : m.mid ∉ pre.foldl addSeen [] := by
    intro hmemf
    rcases mem_of_mem_foldl_addSeen pre [] m.mid hmemf with h | h
    · simp at h
    · exact hm h
  rw [mutAux_badpair proc _ _ (f + 1 + 1) s₀ s' (.susp (lineK [] (yieldM m k)))
    none none [] (rsPre.getLastD .vnone) [] _ m
    (fun x => match x with | .ok v => k v | .error e => .fail e) tg hstep hmem hproc]
  rw [mutAux_exc_reraise proc _ _ (f + 1) s' _ [] _ .runtimeError
    (.susp (fun x => match x with | .ok v => k v | .error e => .fail e)) none none
    (by simp) rfl]
  simp [runPlan, withMsgs]

/-- Witness for C8: after one declined `checkpoint`, the rewrite answers the
`open_run` Message with a tail but no replacement; the run faults with
`RuntimeError` without yielding `open_run`, leaving the rest of the script
unconsumed. -/
theorem c8_tail_without_replacement_witness :
    runPlan
      (plan_mutator 10
        (msgsThen [⟨"checkpoint", none, [], [], 1⟩]
          (yieldM ⟨"open_run", none, [], [], 2⟩ fun _ => .done .vnone))
        (fun (s : Unit) (m : Msg) =>
          (s, if m.mid = 2 then .pair none (some (single_gen ⟨"kickoff", some 3, [], [], 4⟩))
              else .pair none none)) ())
      (oks [.vnone] ++ [.ok .vnone]) =
      ([⟨"checkpoint", none, [], [], 1⟩], .faulted .runtimeError, [.ok .vnone]) := by
  have h := c8_tail_without_replacement Unit
    (fun (s : Unit) (m : Msg) =>
      (s, if m.mid = 2 then .pair none (some (single_gen ⟨"kickoff", some 3, [], [], 4⟩))
          else .pair none none)) () ()
    [⟨"checkpoint", none, [], [], 1⟩] [.vnone] ⟨"open_run", none, [], [], 2⟩
    (fun _ => .done .vnone) (single_gen ⟨"kickoff", some 3, [], [], 4⟩) 10 [.ok .vnone]
    (by decide)
    (by intro m' hm'; rw [List.mem_singleton] at hm'; subst hm'; rfl)
    (by decide) rfl (by decide)
  exact h

/- ## Claim C9: deduplication is by identity only -/

/-- C9, first conjunct: a Message instance whose identity token is already in
the seen set — e.g. one re-surfacing unchanged from a splice — is yielded to
the caller without the rewrite function being applied: the engine step is the
same for *every* rewrite function `proc`, the closure state `s` is untouched
and the seen set does not change.  Second conjunct: a Message `m` whose
fields all equal those of an already-seen Message `m₀` but whose identity
token is new is treated as unseen: the rewrite function *is* applied, and its
splice answer takes effect. -/
theorem c9_identity_dedup :
    (∀ (σ : Type) (proc : σ → Msg → σ × ProcRes) (kd : σ → Val → Plan)
       (kf : σ → Err → Plan) (fuel : Nat) (s : σ) (fr : FrameState) (t : Option Plan)
       (ov : Option Val) (rest : List Entry) (r : Val) (res : List Val)
       (seen : List Nat) (m : Msg) (k : Except Err Val → Plan),
       resumeF fr (.ok r) = .yielded m k →
       m.mid ∈ seen →
       mutAux proc kd kf (fuel + 1) (.iter s (⟨fr, t, ov⟩ :: rest) (r :: res) seen) =
         yTree proc kd kf fuel s (⟨.susp k, t, ov⟩ :: rest) res seen m) ∧
    (∀ (σ : Type) (proc : σ → Msg → σ × ProcRes) (kd : σ → Val → Plan)
       (kf : σ → Err → Plan) (fuel : Nat) (s s' : σ) (fr : FrameState) (t : Option Plan)
       (ov : Option Val) (rest : List Entry) (r : Val) (res : List Val)
       (seen : List Nat) (m m₀ : Msg) (k : Except Err Val → Plan) (g : Plan)
       (tg : Option Plan),
       resumeF fr (.ok r) = .yielded m k →
       m.command = m₀.command → m.obj = m₀.obj → m.args = m₀.args →
       m.kwargs = m₀.kwargs → m₀.mid ∈ seen →
       m.mid ∉ seen →
       proc s m = (s', .pair (some g) tg) →
       mutAux proc kd kf (fuel + 1) (.iter s (⟨fr, t, ov⟩ :: rest) (r :: res) seen) =
         mutAux proc kd kf fuel
           (.iter s' (⟨unstarted g, tg, none⟩ :: ⟨.susp k, t, ov⟩ :: rest)
             (.vnone :: res) (m.mid :: seen))) := by
  constructor
  · intro σ proc kd kf fuel s fr t ov rest r res seen m k hstep hm
    rw [mutAux_yield_pass proc kd kf fuel s fr t ov rest r res seen m k hstep
      (Or.inl hm)]
    rw [show addSeen seen m = seen from by simp [addSeen, hm]]
  · intro σ proc kd kf fuel s s' fr t ov rest r res seen m m₀ k g tg hstep
      _hcmd _hobj _hargs _hkw _hm₀ hm hproc
    exact mutAux_splice proc kd kf fuel s s' fr t ov rest r res seen m k g tg
      hstep hm hproc

/-- Witness for C9: `open_run` with identity token `1` is in the seen set and
re-surfaces — it passes through any rewrite function untouched; a freshly
constructed `open_run` with identical fields but token `2` is rewritten and
its replacement spliced. -/
theorem c9_identity_dedup_witness :
    (mutAux passProc (fun _ v => .done v) (fun _ e => .fail e) 6
        (.iter () [⟨.susp (lineK [] (single_gen ⟨"open_run", none, [], [], 1⟩)),
          none, none⟩] [.vnone] [1]) =
      yTree passProc (fun _ v => .done v) (fun _ e => .fail e) 5 ()
        [⟨.susp (lineK [] (.done .vnone)), none, none⟩] [] [1]
        ⟨"open_run", none, [], [], 1⟩) ∧
    (mutAux (openRunSpliceProc ⟨"kickoff", some 21, [], [], 11⟩
          ⟨"kickoff", some 22, [], [], 12⟩)
        (fun _ v => .done v) (fun _ e => .fail e) 6
        (.iter () [⟨.susp (lineK [] (single_gen ⟨"open_run", none, [], [], 2⟩)),
          none, none⟩] [.vnone] [1]) =
      mutAux (openRunSpliceProc ⟨"kickoff", some 21, [], [], 11⟩
          ⟨"kickoff", some 22, [], [], 12⟩)
        (fun _ v => .done v) (fun _ e => .fail e) 5
        (.iter ()
          [⟨unstarted (msgsPlan [⟨"kickoff", some 21, [], [], 11⟩,
              ⟨"kickoff", some 22, [], [], 12⟩, ⟨"open_run", none, [], [], 2⟩] .vnone),
            none, none⟩,
           ⟨.susp (lineK [] (.done .vnone)), none, none⟩]
          [.vnone] [2, 1])) := by
  constructor
  · exact c9_identity_dedup.1 Unit passProc (fun _ v => .done v) (fun _ e => .fail e)
      5 () (.susp (lineK [] (single_gen ⟨"open_run", none, [], [], 1⟩))) none none []
      .vnone [] [1] ⟨"open_run", none, [], [], 1⟩ (lineK [] (.done .vnone))
      rfl (by decide)
  · exact c9_identity_dedup.2 Unit
      (openRunSpliceProc ⟨"kickoff", some 21, [], [], 11⟩ ⟨"kickoff", some 22, [], [], 12⟩)
      (fun _ v => .done v) (fun _ e => .fail e) 5 () ()
      (.susp (lineK [] (single_gen ⟨"open_run", none, [], [], 2⟩))) none none []
      .vnone [] [1] ⟨"open_run", none, [], [], 2⟩ ⟨"open_run", none, [], [], 1⟩
      (lineK [] (.done .vnone))
      (msgsPlan [⟨"kickoff", some 21, [], [], 11⟩, ⟨"kickoff", some 22, [], [], 12⟩,
        ⟨"open_run", none, [], [], 2⟩] .vnone) none
      rfl rfl rfl rfl rfl (by decide) (by decide) (by simp [openRunSpliceProc])

/- ## Claim C6: `stage_wrapper` -/

/-- The rewrite closure `inner` of `stage_wrapper`, with its mutable
`seen_objs` plus a token counter for freshly constructed Messages threaded as
engine state.  Faithful to the source's control flow: a Message with no
target passes through (`else: return None, None`); a Message whose target's
root is unseen gets `bschain(single_gen(Msg('stage', root)), single_gen(msg))`
spliced (no tail); but a Message whose target's root is *already seen* falls
off the end of `inner`, which in Python returns bare `None` — not a pair —
so the engine's unpacking raises `TypeError`. -/
def stageProc (root : Nat → Nat) : (List Nat × Nat) → Msg → (List Nat × Nat) × ProcRes :=
  fun st m =>
    match m.obj with
    | some o =>
        let obj := root o
        if obj ∈ st.1 then (st, .pyNone)
        else ((obj :: st.1, st.2 + 1),
          .pair (some (bschain2 (single_gen ⟨"stage", some obj, [], [], st.2⟩)
            (single_gen m))) none)
    | none => (st, .pair none none)

/-- The `unstage` finalization generator: one `unstage` Message per staged
object, reading `seen_objs` at the time it runs (Python iterates the set;
here the staged objects are listed most-recently-staged first). -/
def unstagePlan (objs : List Nat) (ctr : Nat) : Plan :=
  msgsPlan (objs.enum.map fun p => ⟨"unstage", some p.2, [], [], ctr + p.1⟩) .vnone

/-- `stage_wrapper(plan)`:
`finalize(plan_mutator(plan, inner), unstage())` with the shared mutable
`seen_objs` threaded as the engine's closure state.  The completion and fault
continuations encode `finalize`'s `finally`: whether `plan_mutator` completes
or faults, the unstage generator (built from the closure state at that
moment) runs first, and then the value is returned or the fault re-raised. -/
def stage_wrapper (fuel : Nat) (root : Nat → Nat) (c₀ : Nat) (p : Plan) : Plan :=
  mutAux (stageProc root)
    (fun st v => bindOk (unstagePlan st.1 st.2) fun _ => .done v)
    (fun st e => bindOk (unstagePlan st.1 st.2) fun _ => .fail e)
    fuel (.iter ([], c₀) [⟨unstarted p, none, none⟩] [.vnone] [])

/-- C6 (the code, evaluated at the failing input): wrapping a one-message
plan that reads device `5` (its own root).  The claim expects the run
`stage 5, read 5, unstage 5` with normal completion.  Instead: the `read` is
rewritten into a splice whose first message is the fresh `stage 5`; `5` is by
then already in `seen_objs`, so `inner` returns bare `None` for the `stage`
Message and the engine's unpacking raises `TypeError` before anything is
yielded; the fault is thrown into the root, propagates, and `finalize` runs
the unstage generator — so the caller observes only `unstage 5` followed by
the `TypeError`.  The second conjunct shows a plan touching no device (a lone
`checkpoint`) does pass through with no stage/unstage bracketing. -/
theorem c6_stage_wrapper_crash :
    runPlan (stage_wrapper 20 id 100 (msgsPlan [⟨"read", some 5, [], [], 1⟩] .vnone))
        (oks [.vnone]) =
      ([⟨"unstage", some 5, [], [], 101⟩], .faulted .typeError, []) ∧
    runPlan (stage_wrapper 20 id 100 (msgsPlan [⟨"checkpoint", none, [], [], 1⟩] .vnone))
        (oks [.vnone]) =
      ([⟨"checkpoint", none, [], [], 1⟩], .completed .vnone, []) := by
  constructor
  · rfl
  · rfl

/- ## Claim C7: `relative_set` -/

/-- `devices is None or msg.obj in devices`. -/
def matchDev (devs : Option (List Nat)) (o : Option Nat) : Bool :=
  match devs with
  | none => true
  | some l =>
      match o with
      | some d => l.contains d
      | none => false

/-- Dictionary lookup in the `initial_positions` cache. -/
def lookupA : List (Nat × Int) → Nat → Option Int
  | [], _ => none
  | (k, v) :: t, d => if k = d then some v else lookupA t d

/-- The rewrite closure `f` of `relative_set`, with `initial_positions`
threaded as explicit state.  `pos` is the boundary query `msg.obj.position`.
The result also reports which device's position was queried (if any), so the
query-count property is statable; `none` overall models the exceptions the
Python closure can raise (`rel_pos, = msg.args` unpacking, or `.position` on
a missing target). -/
def relProcF (pos : Nat → Int) (devs : Option (List Nat)) (st : List (Nat × Int))
    (m : Msg) : Option (List (Nat × Int) × Msg × Option Nat) :=
  if m.command = "set" ∧ matchDev devs m.obj = true then
    match m.obj with
    | none => none
    | some d =>
        let cached :=
          match lookupA st d with
          | some p => (st, p, (none : Option Nat))
          | none => ((d, pos d) :: st, pos d, some d)
        match m.args with
        | [.vint rel] => some (cached.1, { m with args := [.vint (cached.2.1 + rel)] },
            cached.2.2)
        | _ => none
  else some (st, m, none)

/-- Modelled from the spec: `simple_preprocessor` (used by `relative_set` but
absent from `src/`) is the 1:1 in-place message transform of §4.2/§4.4:
each message of the wrapped plan is replaced by the transform's output (the
insertion lists `relative_set` passes are empty), each response is forwarded
to the wrapped plan unchanged, and a transform failure faults the plan. -/
def simple_preprocessor {St : Type} (f : St → Msg → Option (St × Msg × Option Nat)) :
    St → Plan → Plan
  | _, .done v => .done v
  | _, .fail e => .fail e
  | st, .yield m k =>
      match f st m with
      | none => .fail .valueError
      | some (st', m', _) => .yield m' fun x => simple_preprocessor f st' (k x)

/-- `relative_set(plan, devices)`: the transform above over an initially
empty position cache. -/
def relative_set (pos : Nat → Int) (devs : Option (List Nat)) (p : Plan) : Plan :=
  simple_preprocessor (relProcF pos devs) [] p

/-- Fold `relProcF` over a message list, collecting the rewritten messages
and the log of position queries performed. -/
def relList (pos : Nat → Int) (devs : Option (List Nat)) :
    List (Nat × Int) → List Msg → Option (List (Nat × Int) × List Msg × List Nat)
  | st, [] => some (st, [], [])
  | st, m :: ms =>
      match relProcF pos devs st m with
      | none => none
      | some (st', m', q) =>
          match relList pos devs st' ms with
          | none => none
          | some (st'', ms', qs) => some (st'', m' :: ms', q.toList ++ qs)

/-- The expected per-message rewrite: an intercepted `set` gets its relative
argument turned absolute by adding the target's initial position. -/
def rewriteMsg (pos : Nat → Int) (devs : Option (List Nat)) (m : Msg) : Msg :=
  if m.command = "set" ∧ matchDev devs m.obj = true then
    match m.obj, m.args with
    | some d, [.vint rel] => { m with args := [.vint (pos d + rel)] }
    | _, _ => m
  else m

/-- Well-formedness: every intercepted `set` has a target and a single
integer argument (otherwise the Python closure raises). -/
def RelWF (devs : Option (List Nat)) (m : Msg) : Prop :=
  m.command = "set" ∧ matchDev devs m.obj = true →
    ∃ d rel, m.obj = some d ∧ m.args = [.vint rel]

/-- `m` is an intercepted `set` targeting device `d`. -/
def SelOn (devs : Option (List Nat)) (d : Nat) (m : Msg) : Prop :=
  m.command = "set" ∧ matchDev devs m.obj = true ∧ m.obj = some d

instance (devs : Option (List Nat)) (d : Nat) (m : Msg) : Decidable (SelOn devs d m) :=
  inferInstanceAs (Decidable (_ ∧ _ ∧ _))

theorem lookupA_mem :
    ∀ (st : List (Nat × Int)) (d : Nat) (p : Int), lookupA st d = some p → (d, p) ∈ st := by
  intro st
  induction st with
  | nil => intro d p h; simp [lookupA] at h
  | cons kv t ih =>
      intro d p h
      obtain ⟨k, v⟩ := kv
      by_cases hk : k = d
      · subst hk
        simp [lookupA] at h
        subst h
        exact List.mem_cons_self _ _
      · simp [lookupA, hk] at h
        exact List.mem_cons_of_mem _ (ih d p h)

theorem lookupA_cons_ne (k : Nat) (v : Int) (st : List (Nat × Int)) (d : Nat)
    (h : k ≠ d) : lookupA ((k, v) :: st) d = lookupA st d := by
  simp [lookupA, h]

theorem relProcF_not_sel (pos : Nat → Int) (devs : Option (List Nat))
    (st : List (Nat × Int)) (m : Msg)
    (h : ¬(m.command = "set" ∧ matchDev devs m.obj = true)) :
    relProcF pos devs st m = some (st, m, none) := by
  simp [relProcF, h]

theorem relProcF_sel_cached (pos : Nat → Int) (devs : Option (List Nat))
    (st : List (Nat × Int)) (m : Msg) (d : Nat) (rel p : Int)
    (hsel : m.command = "set" ∧ matchDev devs m.obj = true)
    (hobj : m.obj = some d) (hargs : m.args = [.vint rel])
    (hlook : lookupA st d = some p) :
    relProcF pos devs st m =
      some (st, { m with args := [.vint (p + rel)] }, none) := by
  have hmd : matchDev devs (some d) = true := hobj ▸ hsel.2
  simp [relProcF, hsel.1, hmd, hobj, hargs, hlook]

theorem relProcF_sel_new (pos : Nat → Int) (devs : Option (List Nat))
    (st : List (Nat × Int)) (m : Msg) (d : Nat) (rel : Int)
    (hsel : m.command = "set" ∧ matchDev devs m.obj = true)
    (hobj : m.obj = some d) (hargs : m.args = [.vint rel])
    (hlook : lookupA st d = none) :
    relProcF pos devs st m =
      some ((d, pos d) :: st, { m with args := [.vint (pos d + rel)] }, some d) := by
  have hmd : matchDev devs (some d) = true := hobj ▸ hsel.2
  simp [relProcF, hsel.1, hmd, hobj, hargs, hlook]

theorem rewriteMsg_not_sel (pos : Nat → Int) (devs : Option (List Nat)) (m : Msg)
    (h : ¬(m.command = "set" ∧ matchDev devs m.obj = true)) :
    rewriteMsg pos devs m = m := by
  simp [rewriteMsg, h]

theorem rewriteMsg_sel (pos : Nat → Int) (devs : Option (List Nat)) (m : Msg)
    (d : Nat) (rel : Int)
    (hsel : m.command = "set" ∧ matchDev devs m.obj = true)
    (hobj : m.obj = some d) (hargs : m.args = [.vint rel]) :
    rewriteMsg pos devs m = { m with args := [.vint (pos d + rel)] } := by
  have hmd : matchDev devs (some d) = true := hobj ▸ hsel.2
  simp [rewriteMsg, hsel.1, hmd, hobj, hargs]


theorem exists_selOn_cons_of_not (devs : Option (List Nat)) (d : Nat) (m : Msg)
    (ms : List Msg) (hnot : ¬ SelOn devs d m) :
    (∃ m' ∈ m :: ms, SelOn devs d m') ↔ (∃ m' ∈ ms, SelOn devs d m') := by
  constructor
  · rintro ⟨m', hm', hs⟩
    rcases List.mem_cons.mp hm' with rfl | hm'
    · exact absurd hs hnot
    · exact ⟨m', hm', hs⟩
  · rintro ⟨m', hm', hs⟩
    exact ⟨m', List.mem_cons_of_mem _ hm', hs⟩

/-- Folding the rewrite closure over a well-formed message list from a cache
whose entries all record true initial positions: every message is rewritten
exactly as `rewriteMsg` predicts (each intercepted `set` uses the target's
cached initial position), the cache invariant is preserved, and the position
of a device `d` is queried exactly once if some intercepted `set` targets `d`
and `d` is not yet cached — zero times otherwise. -/
theorem relList_spec (pos : Nat → Int) (devs : Option (List Nat)) :
    ∀ (ms : List Msg) (st : List (Nat × Int)),
      (∀ m' ∈ ms, RelWF devs m') →
      (∀ dp ∈ st, dp.2 = pos dp.1) →
      ∃ st' qlog,
        relList pos devs st ms = some (st', ms.map (rewriteMsg pos devs), qlog) ∧
        (∀ dp ∈ st', dp.2 = pos dp.1) ∧
        (∀ d : Nat, qlog.count d =
          if (lookupA st d).isSome then 0
          else if ∃ m' ∈ ms, SelOn devs d m' then 1 else 0) := by
  intro ms
  induction ms with
  | nil =>
      intro st _ hinv
      refine ⟨st, [], by simp [relList], hinv, fun d => by simp⟩
  | cons m ms ih =>
      intro st hwf hinv
      by_cases hsel : m.command = "set" ∧ matchDev devs m.obj = true
      · obtain ⟨d₀, rel, hobj, hargs⟩ := hwf m (List.mem_cons_self m ms) hsel
        cases hlook : lookupA st d₀ with
        | some p =>
            have hp : p = pos d₀ := by
              simpa using hinv (d₀, p) (lookupA_mem st d₀ p hlook)
            obtain ⟨st', qlog, hrl, hinv', hcount⟩ :=
              ih st (fun m' hm' => hwf m' (List.mem_cons_of_mem _ hm')) hinv
            refine ⟨st', qlog, ?_, hinv', ?_⟩
            · simp only [relList, relProcF_sel_cached pos devs st m d₀ rel p hsel hobj
                hargs hlook, hrl, List.map_cons,
                rewriteMsg_sel pos devs m d₀ rel hsel hobj hargs, hp]
              simp [Option.toList]
            · intro d
              rw [hcount d]
              by_cases hd : d = d₀
              · subst hd
                simp [hlook]
              · have hnot : ¬ SelOn devs d m := by
                  intro hs
                  apply hd
                  have h2 := hobj
                  rw [hs.2.2] at h2
                  exact Option.some.inj h2
                simp only [exists_selOn_cons_of_not devs d m ms hnot]
        | none =>
            have hinv2 : ∀ dp ∈ (d₀, pos d₀) :: st, dp.2 = pos dp.1 := by
              intro dp hdp
              rcases List.mem_cons.mp hdp with rfl | hdp
              · rfl
              · exact hinv dp hdp
            obtain ⟨st', qlog, hrl, hinv', hcount⟩ :=
              ih ((d₀, pos d₀) :: st) (fun m' hm' => hwf m' (List.mem_cons_of_mem _ hm'))
                hinv2
            refine ⟨st', d₀ :: qlog, ?_, hinv', ?_⟩
            · simp only [relList, relProcF_sel_new pos devs st m d₀ rel hsel hobj
                hargs hlook, hrl, List.map_cons,
                rewriteMsg_sel pos devs m d₀ rel hsel hobj hargs]
              simp [Option.toList]
            · intro d
              by_cases hd : d = d₀
              · subst hd
                have h0 : qlog.count d = 0 := by
                  rw [hcount d]
                  simp [lookupA]
                have hsd : SelOn devs d m := ⟨hsel.1, hsel.2, hobj⟩
                simp [List.count_cons, h0, hlook]
                exact (if_pos (Or.inl hsd)).symm
              · have hnot : ¬ SelOn devs d m := by
                  intro hs
                  apply hd
                  have h2 := hobj
                  rw [hs.2.2] at h2
                  exact Option.some.inj h2
                have hcnt : (d₀ :: qlog).count d = qlog.count d := by
                  simp [List.count_cons, hd]
                rw [hcnt, hcount d, lookupA_cons_ne d₀ (pos d₀) st d (Ne.symm hd)]
                simp only [exists_selOn_cons_of_not devs d m ms hnot]
      · obtain ⟨st', qlog, hrl, hinv', hcount⟩ :=
          ih st (fun m' hm' => hwf m' (List.mem_cons_of_mem _ hm')) hinv
        refine ⟨st', qlog, ?_, hinv', ?_⟩
        · simp only [relList, relProcF_not_sel pos devs st m hsel, hrl, List.map_cons,
            rewriteMsg_not_sel pos devs m hsel]
          simp [Option.toList]
        · intro d
          rw [hcount d]
          have hnot : ¬ SelOn devs d m := fun hs => hsel ⟨hs.1, hs.2.1⟩
          simp only [exists_selOn_cons_of_not devs d m ms hnot]

theorem relProcF_wf (pos : Nat → Int) (devs : Option (List Nat))
    (st : List (Nat × Int)) (m : Msg) (hwf : RelWF devs m)
    (hinv : ∀ dp ∈ st, dp.2 = pos dp.1) :
    ∃ st' q, relProcF pos devs st m = some (st', rewriteMsg pos devs m, q) ∧
      (∀ dp ∈ st', dp.2 = pos dp.1) := by
  by_cases hsel : m.command = "set" ∧ matchDev devs m.obj = true
  · obtain ⟨d, rel, hobj, hargs⟩ := hwf hsel
    rw [rewriteMsg_sel pos devs m d rel hsel hobj hargs]
    cases hlook : lookupA st d with
    | some p =>
        have hp : p = pos d := by
          simpa using hinv (d, p) (lookupA_mem st d p hlook)
        subst hp
        exact ⟨st, none, relProcF_sel_cached pos devs st m d rel _ hsel hobj hargs hlook,
          hinv⟩
    | none =>
        refine ⟨(d, pos d) :: st, some d,
          relProcF_sel_new pos devs st m d rel hsel hobj hargs hlook, ?_⟩
        intro dp hdp
        rcases List.mem_cons.mp hdp with rfl | hdp
        · rfl
        · exact hinv dp hdp
  · rw [rewriteMsg_not_sel pos devs m hsel]
    exact ⟨st, none, relProcF_not_sel pos devs st m hsel, hinv⟩

theorem simple_preprocessor_yield {St : Type}
    (f : St → Msg → Option (St × Msg × Option Nat)) (st : St) (m : Msg)
    (k : Except Err Val → Plan) (st' : St) (m' : Msg) (q : Option Nat)
    (hf : f st m = some (st', m', q)) :
    simple_preprocessor f st (.yield m k) =
      .yield m' fun x => simple_preprocessor f st' (k x) := by
  simp [simple_preprocessor, hf]

/-- Running a `relative_set`-wrapped straight-line plan rewrites each message
pointwise: intercepted `set` Messages get the cached initial position added
to their relative argument; all other messages pass through unchanged;
responses and the completion value are forwarded untouched. -/
theorem relative_set_trace (pos : Nat → Int) (devs : Option (List Nat)) :
    ∀ (ms : List Msg) (st : List (Nat × Int)) (rs : List Val) (v : Val),
      (∀ m' ∈ ms, RelWF devs m') →
      (∀ dp ∈ st, dp.2 = pos dp.1) →
      ms.length = rs.length →
      runPlan (simple_preprocessor (relProcF pos devs) st (msgsPlan ms v)) (oks rs) =
        (ms.map (rewriteMsg pos devs), .completed v, []) := by
  intro ms
  induction ms with
  | nil =>
      intro st rs v _ _ hlen
      have hrs : rs = [] := List.length_eq_zero.mp hlen.symm
      subst hrs
      simp [msgsPlan, msgsThen, simple_preprocessor, runPlan, oks]
  | cons m ms ih =>
      intro st rs v hwf hinv hlen
      cases rs with
      | nil => simp at hlen
      | cons r rs' =>
          obtain ⟨st', q, hf, hinv'⟩ :=
            relProcF_wf pos devs st m (hwf m (List.mem_cons_self m ms)) hinv
          rw [show msgsPlan (m :: ms) v = .yield m (lineK ms (.done v)) from rfl,
            simple_preprocessor_yield (relProcF pos devs) st m _ st' _ q hf]
          rw [show oks (r :: rs') = .ok r :: oks rs' from rfl, runPlan_yield_cons]
          rw [show lineK ms (.done v) (.ok r) = msgsPlan ms v from rfl]
          rw [ih st' rs' v (fun m' hm' => hwf m' (List.mem_cons_of_mem _ hm')) hinv'
            (by simpa using hlen)]
          simp

/-- C7: relative-coordinate rewriting.
First conjunct — the position cache and query discipline of the rewrite
closure itself: over any well-formed message sequence, every message comes
out as `rewriteMsg` (each intercepted `set`'s relative argument gets the
target's *initial* position `pos d` added — the cached value, identical for
every subsequent `set` on that target), and the target's current position is
queried exactly once when the sequence contains an intercepted `set` for it,
never again for later `set`s.
Second conjunct — the same pointwise rewriting observed through the
`relative_set`-wrapped plan run against a response script.
Third conjunct — the spec's scenario: `set(M, 5, group=g), wait(g), read(M)`
wrapped for `M` at position 10 yields an observed `set` argument of 15. -/
theorem c7_relative_set :
    (∀ (pos : Nat → Int) (devs : Option (List Nat)) (ms : List Msg),
       (∀ m' ∈ ms, RelWF devs m') →
       ∃ st' qlog,
         relList pos devs [] ms = some (st', ms.map (rewriteMsg pos devs), qlog) ∧
         (∀ dp ∈ st', dp.2 = pos dp.1) ∧
         (∀ d : Nat, qlog.count d =
           if ∃ m' ∈ ms, SelOn devs d m' then 1 else 0)) ∧
    (∀ (pos : Nat → Int) (devs : Option (List Nat)) (ms : List Msg) (rs : List Val)
       (v : Val),
       (∀ m' ∈ ms, RelWF devs m') →
       ms.length = rs.length →
       runPlan (relative_set pos devs (msgsPlan ms v)) (oks rs) =
         (ms.map (rewriteMsg pos devs), .completed v, [])) ∧
    (runPlan (relative_set (fun _ => 10) (some [7])
        (msgsPlan [⟨"set", some 7, [.vint 5], [("block_group", .vstr "g")], 1⟩,
          ⟨"wait", none, [.vstr "g"], [], 2⟩, ⟨"read", some 7, [], [], 3⟩] .vnone))
      (oks [.vnone, .vnone, .vnone]) =
      ([⟨"set", some 7, [.vint 15], [("block_group", .vstr "g")], 1⟩,
        ⟨"wait", none, [.vstr "g"], [], 2⟩, ⟨"read", some 7, [], [], 3⟩],
        .completed .vnone, [])) := by
  refine ⟨?_, ?_, ?_⟩
  · intro pos devs ms hwf
    obtain ⟨st', qlog, hrl, hinv', hcount⟩ :=
      relList_spec pos devs ms [] hwf (by simp)
    refine ⟨st', qlog, hrl, hinv', fun d => ?_⟩
    rw [hcount d]
    simp [lookupA]
  · intro pos devs ms rs v hwf hlen
    exact relative_set_trace pos devs ms [] rs v hwf (by simp) hlen
  · rfl

/-- Witness for C7's universally quantified conjuncts, at the scenario
instance (device `7` at position `10`, relative move by `5`). -/
theorem c7_relative_set_witness :
    (∃ st' qlog,
       relList (fun _ => 10) (some [7]) []
           [⟨"set", some 7, [.vint 5], [("block_group", .vstr "g")], 1⟩,
            ⟨"wait", none, [.vstr "g"], [], 2⟩, ⟨"read", some 7, [], [], 3⟩] =
         some (st',
           [⟨"set", some 7, [.vint 5], [("block_group", .vstr "g")], 1⟩,
            ⟨"wait", none, [.vstr "g"], [], 2⟩,
            ⟨"read", some 7, [], [], 3⟩].map (rewriteMsg (fun _ => 10) (some [7])),
           qlog) ∧
       (∀ dp ∈ st', dp.2 = (fun _ => (10 : Int)) dp.1) ∧
       (∀ d : Nat, qlog.count d =
         if ∃ m' ∈ ([⟨"set", some 7, [.vint 5], [("block_group", .vstr "g")], 1⟩,
             ⟨"wait", none, [.vstr "g"], [], 2⟩,
             ⟨"read", some 7, [], [], 3⟩] : List Msg), SelOn (some [7]) d m'
         then 1 else 0)) ∧
    runPlan (relative_set (fun _ => 10) (some [7])
        (msgsPlan [⟨"set", some 7, [.vint 5], [("block_group", .vstr "g")], 1⟩,
          ⟨"wait", none, [.vstr "g"], [], 2⟩, ⟨"read", some 7, [], [], 3⟩] .vnone))
      (oks [.vnone, .vnone, .vnone]) =
      ([⟨"set", some 7, [.vint 5], [("block_group", .vstr "g")], 1⟩,
        ⟨"wait", none, [.vstr "g"], [], 2⟩,
        ⟨"read", some 7, [], [], 3⟩].map (rewriteMsg (fun _ => 10) (some [7])),
        .completed .vnone, []) := by
  have hwf : ∀ m' ∈ [(⟨"set", some 7, [.vint 5], [("block_group", .vstr "g")], 1⟩ : Msg),
      ⟨"wait", none, [.vstr "g"], [], 2⟩, ⟨"read", some 7, [], [], 3⟩],
      RelWF (some [7]) m' := by
    intro m' hm'
    fin_cases hm' <;> intro h <;> first
      | exact ⟨7, 5, rfl, rfl⟩
      | (exfalso; revert h; decide)
  constructor
  · exact c7_relative_set.1 (fun _ => 10) (some [7]) _ hwf
  · exact c7_relative_set.2.1 (fun _ => 10) (some [7]) _ [.vnone, .vnone, .vnone] .vnone
      hwf (by decide)
